import Mathlib

/-!
Verification development for the peer-ban manager (`src/banman.cpp`).

The ban manager keeps two association maps — exact addresses and subnets,
each to a `CBanEntry` — plus a bounded FIFO ring of addresses banned for
misbehavior, and a dirty flag gating writes to a durable store.  The
address/subnet value types and the durable store are external collaborators;
they are modelled abstractly (`NetModel`, a `writer` predicate on snapshots).
Times (`GetTime`, ban offsets, expiries) are `int64_t` in the source and are
modelled as `Int`; the current time is passed explicitly to every operation
that calls `GetTime()`.
-/

set_option linter.unusedSectionVars false
set_option linter.unreachableTactic false
set_option linter.unusedTactic false

namespace Banman

/-- Modelled from the spec: `BanReason` lives in the header `banman.h`, which
is not part of the source tree here.  The spec states the reasons are
`Unknown`, `NodeMisbehaving` and `ManuallyAdded`, with any further
caller-supplied reason treated identically to `Unknown`. -/
inductive BanReason where
  | Unknown : BanReason
  | NodeMisbehaving : BanReason
  | ManuallyAdded : BanReason
deriving DecidableEq, Repr

/-- A ban record: creation time, expiry time, reason (`CBanEntry`). -/
structure CBanEntry where
  nCreateTime : Int
  nBanUntil : Int
  banReason : BanReason
deriving DecidableEq, Repr

/-- Modelled from the spec: the default-constructed `CBanEntry` (declared in
the missing header) behaves as the spec's absent entry
`{bannedUntil: 0, reason: Unknown}`; its creation time is zeroed. -/
def CBanEntry.null : CBanEntry := ⟨0, 0, .Unknown⟩

/-- Modelled from the spec: `CNetAddr` / `CSubNet` are external collaborators,
"treated as opaque capabilities: exact-match key, and does this subnet
contain this address".  `ofAddr` is the `CSubNet(CNetAddr)` constructor
building the degenerate single-address subnet, so `isSingleAddr` recovers
the address from it (`CSubNet::IsSingleAddr`). -/
structure NetModel (Addr Subnet : Type) where
  isSingleAddr : Subnet → Option Addr
  subnetMatch : Subnet → Addr → Bool
  ofAddr : Addr → Subnet
  ofAddr_single : ∀ a, isSingleAddr (ofAddr a) = some a

/-- The mutable state of `BanMan`: the two ban maps (`m_banned_addrs`,
`m_banned_subnets`, modelled as association lists), the misbehavior ring
(`m_misbehaving_addrs`, a `boost::circular_buffer` — front of the list is the
oldest element), its capacity, and the dirty flag `m_is_dirty`. -/
structure BanState (Addr Subnet : Type) where
  banned_addrs : List (Addr × CBanEntry)
  banned_subnets : List (Subnet × CBanEntry)
  misbehaving_addrs : List Addr
  misbehaving_capacity : Nat
  is_dirty : Bool
deriving DecidableEq, Repr

section Ops

variable {Addr Subnet : Type} [DecidableEq Addr] [DecidableEq Subnet]

/-- Association-list lookup (`std::map::find`): first pair with the key. -/
def lookupKey {K V : Type} [DecidableEq K] (k : K) : List (K × V) → Option V
  | [] => none
  | p :: rest => if p.1 = k then some p.2 else lookupKey k rest

/-- Association-list write (`map[k] = v` on a present key, insert otherwise):
replaces the first binding of `k`, else appends. -/
def setKey {K V : Type} [DecidableEq K] (k : K) (v : V) : List (K × V) → List (K × V)
  | [] => [(k, v)]
  | p :: rest => if p.1 = k then (k, v) :: rest else p :: setKey k v rest

/-- Association-list erase (`std::map::erase(k)`): removes the first binding. -/
def eraseKey {K V : Type} [DecidableEq K] (k : K) : List (K × V) → List (K × V)
  | [] => []
  | p :: rest => if p.1 = k then rest else p :: eraseKey k rest

/-- `std::map::operator[]` inserts a default-constructed value when the key is
absent; this models that insertion side effect on the ban maps. -/
def ensureKey {K : Type} [DecidableEq K] (k : K) (l : List (K × CBanEntry)) :
    List (K × CBanEntry) :=
  match lookupKey k l with
  | some _ => l
  | none => l ++ [(k, CBanEntry.null)]

/-- The value read through `operator[]`: the stored entry, or the
default-constructed one for an absent key. -/
def mapGetD {K : Type} [DecidableEq K] (k : K) (l : List (K × CBanEntry)) : CBanEntry :=
  (lookupKey k l).getD CBanEntry.null

/-- The sweep loop of `BanMan::SweepBanned` over one map: erases every entry
with `now > nBanUntil`, and reports whether anything was removed. -/
def sweepList {K : Type} (now : Int) : List (K × CBanEntry) → List (K × CBanEntry) × Bool
  | [] => ([], false)
  | p :: rest =>
    let r := sweepList now rest
    if now > p.2.nBanUntil then (r.1, true) else (p :: r.1, r.2)

/-- `BanMan::SweepBanned`: sweeps the subnet map, then the address map; any
removal sets the dirty flag and requests a UI notification (the returned
`Bool`).  The misbehavior ring is not touched. -/
def sweepCore (now : Int) (s : BanState Addr Subnet) : BanState Addr Subnet × Bool :=
  let rs := sweepList now s.banned_subnets
  let ra := sweepList now s.banned_addrs
  ({ s with
      banned_subnets := rs.1,
      banned_addrs := ra.1,
      is_dirty := s.is_dirty || rs.2 || ra.2 }, rs.2 || ra.2)

/-- `BanMan::GetBanned`'s exported snapshot: the subnet map together with each
exact address re-keyed as its degenerate subnet (the `banmap_t` handed to the
store; the `std::map` key order is abstracted to list concatenation). -/
def banmapOf (N : NetModel Addr Subnet) (s : BanState Addr Subnet) :
    List (Subnet × CBanEntry) :=
  s.banned_subnets ++ s.banned_addrs.map (fun p => (N.ofAddr p.1, p.2))

/-- `BanMan::DumpBanlist`: sweep first; if the set is not dirty, stop.
Otherwise sweep again (inside `GetBanned`), hand the snapshot to the durable
writer, and mark clean exactly when the write succeeds.  Returns the state and
whether a write was attempted. -/
def dumpBanlist (N : NetModel Addr Subnet) (now : Int)
    (writer : List (Subnet × CBanEntry) → Bool) (s : BanState Addr Subnet) :
    BanState Addr Subnet × Bool :=
  let s1 := (sweepCore now s).1
  if s1.is_dirty = false then (s1, false)
  else
    let s2 := (sweepCore now s1).1
    if writer (banmapOf N s2) then ({ s2 with is_dirty := false }, true) else (s2, true)

/-- The `nBanUntil` computation of `BanMan::Ban`: a non-positive offset is
replaced by the configured default ban time and treated as relative;
otherwise the offset is added to `0` (absolute) or to `now` (relative). -/
def banUntil (now dflt offset : Int) (sinceUnixEpoch : Bool) : Int :=
  if offset ≤ 0 then now + dflt
  else (if sinceUnixEpoch then 0 else now) + offset

/-- The misbehavior-ring maintenance block of `BanMan::Ban` (run only when a
capacity limit is set): on a reason upgrade of a prior ban, drop the address
from the ring; on a brand-new misbehaving entry, evict the oldest ring
address — deleting its table entry entirely — when the ring is full, then
push the address.  The source `assert`s `is_single_addr` on both ring paths,
so this block is only invoked from the single-address branch. -/
def banRingUpdate (a : Addr) (ban_reason : BanReason) (oldE : CBanEntry)
    (s : BanState Addr Subnet) : BanState Addr Subnet :=
  if s.misbehaving_capacity ≠ 0 then
    if oldE.nBanUntil ≠ 0 then
      if oldE.banReason = .NodeMisbehaving ∧ ban_reason ≠ .NodeMisbehaving then
        { s with misbehaving_addrs := s.misbehaving_addrs.erase a }
      else s
    else if ban_reason = .NodeMisbehaving then
      if s.misbehaving_addrs.length = s.misbehaving_capacity then
        match s.misbehaving_addrs with
        | [] => { s with misbehaving_addrs := [a] }
        | f :: rest =>
          { s with banned_addrs := eraseKey f s.banned_addrs,
                   misbehaving_addrs := rest ++ [a] }
      else { s with misbehaving_addrs := s.misbehaving_addrs ++ [a] }
    else s
  else s

/-- The locked section of `BanMan::Ban` given the already-built `ban_entry`:
route by `IsSingleAddr`; read the old entry through `operator[]` (which
inserts a default entry for an absent key); reject when the existing reason is
`ManuallyAdded` and the new one is not; apply when the new expiry is later or
the reason upgrades away from `NodeMisbehaving`, maintaining the ring and
marking dirty; otherwise return without applying.  The ring block is skipped
in the subnet branch, where the source `assert`s it is unreachable.
Returns the state and whether the entry was applied. -/
def banWithEntry (N : NetModel Addr Subnet) (sub : Subnet) (ban_reason : BanReason)
    (entry : CBanEntry) (s : BanState Addr Subnet) : BanState Addr Subnet × Bool :=
  match N.isSingleAddr sub with
  | some a =>
    let oldE := mapGetD a s.banned_addrs
    let s0 := { s with banned_addrs := ensureKey a s.banned_addrs }
    if oldE.banReason = .ManuallyAdded ∧ ban_reason ≠ .ManuallyAdded then (s0, false)
    else if oldE.nBanUntil < entry.nBanUntil ∨
        (oldE.banReason = .NodeMisbehaving ∧ ban_reason ≠ .NodeMisbehaving) then
      let s1 := banRingUpdate a ban_reason oldE s0
      ({ s1 with banned_addrs := setKey a entry s1.banned_addrs, is_dirty := true }, true)
    else (s0, false)
  | none =>
    let oldE := mapGetD sub s.banned_subnets
    let s0 := { s with banned_subnets := ensureKey sub s.banned_subnets }
    if oldE.banReason = .ManuallyAdded ∧ ban_reason ≠ .ManuallyAdded then (s0, false)
    else if oldE.nBanUntil < entry.nBanUntil ∨
        (oldE.banReason = .NodeMisbehaving ∧ ban_reason ≠ .NodeMisbehaving) then
      ({ s0 with banned_subnets := setKey sub entry s0.banned_subnets, is_dirty := true }, true)
    else (s0, false)

/-- `BanMan::Ban` in full: build the entry from `now`, the default ban time
and the offset; run the locked section; when applied, notify observers and —
only for a `ManuallyAdded` reason — flush to disk immediately.
Returns `(state, applied, notified, flushed)`. -/
def banFull (N : NetModel Addr Subnet) (now dflt : Int) (sub : Subnet)
    (ban_reason : BanReason) (offset : Int) (sinceUnixEpoch : Bool)
    (writer : List (Subnet × CBanEntry) → Bool) (s : BanState Addr Subnet) :
    BanState Addr Subnet × Bool × Bool × Bool :=
  let entry : CBanEntry := ⟨now, banUntil now dflt offset sinceUnixEpoch, ban_reason⟩
  let r := banWithEntry N sub ban_reason entry s
  if r.2 then
    if ban_reason = .ManuallyAdded then
      ((dumpBanlist N now writer r.1).1, true, true, true)
    else (r.1, true, true, false)
  else (r.1, false, false, false)

/-- The locked section of `BanMan::Unban`: remove the exact-address entry
(dropping the address from the ring when its reason was `NodeMisbehaving`) or
the subnet entry; report `false` without any change when the key is absent. -/
def unbanCore (N : NetModel Addr Subnet) (sub : Subnet) (s : BanState Addr Subnet) :
    BanState Addr Subnet × Bool :=
  match N.isSingleAddr sub with
  | some a =>
    match lookupKey a s.banned_addrs with
    | none => (s, false)
    | some e =>
      ({ s with
          banned_addrs := eraseKey a s.banned_addrs,
          misbehaving_addrs :=
            if e.banReason = .NodeMisbehaving then s.misbehaving_addrs.erase a
            else s.misbehaving_addrs,
          is_dirty := true }, true)
  | none =>
    match lookupKey sub s.banned_subnets with
    | none => (s, false)
    | some _ =>
      ({ s with banned_subnets := eraseKey sub s.banned_subnets, is_dirty := true }, true)

/-- `BanMan::Unban` in full: on a removal, notify observers and flush to disk
immediately; on an absent key, return `false` with no state change, no
notification and no flush.  Returns `(state, removed, notified)`; the flush is
attempted exactly when `removed` holds. -/
def unbanFull (N : NetModel Addr Subnet) (now : Int)
    (writer : List (Subnet × CBanEntry) → Bool) (sub : Subnet)
    (s : BanState Addr Subnet) : BanState Addr Subnet × Bool × Bool :=
  let r := unbanCore N sub s
  if r.2 then ((dumpBanlist N now writer r.1).1, true, true) else (r.1, false, false)

/-- The locked section of `BanMan::ClearBanned`: empty both maps and the ring
and mark dirty (the wrapper then flushes and notifies). -/
def clearBannedCore (s : BanState Addr Subnet) : BanState Addr Subnet :=
  { s with
    banned_addrs := [],
    banned_subnets := [],
    misbehaving_addrs := [],
    is_dirty := true }

/-- `BanMan::ClearBanned` in full: clear, flush, notify. -/
def clearBanned (N : NetModel Addr Subnet) (now : Int)
    (writer : List (Subnet × CBanEntry) → Bool) (s : BanState Addr Subnet) :
    BanState Addr Subnet :=
  (dumpBanlist N now writer (clearBannedCore s)).1

/-- `BanMan::SetBanned`: clear both maps (the ring is untouched), re-insert
every pair of the snapshot into the map chosen by `IsSingleAddr`, and mark
dirty. -/
def setBanned (N : NetModel Addr Subnet) (banmap : List (Subnet × CBanEntry))
    (s : BanState Addr Subnet) : BanState Addr Subnet :=
  let s0 := { s with
              banned_addrs := ([] : List (Addr × CBanEntry)),
              banned_subnets := ([] : List (Subnet × CBanEntry)) }
  let s1 := banmap.foldl (fun st p =>
    match N.isSingleAddr p.1 with
    | some a => { st with banned_addrs := setKey a p.2 st.banned_addrs }
    | none => { st with banned_subnets := setKey p.1 p.2 st.banned_subnets }) s0
  { s1 with is_dirty := true }

/-- `BanMan::SetMisbehavingLimit`: set the ring capacity.  The source notes
this only works before any bans are set; the model records the new capacity. -/
def setMisbehavingLimit (n : Nat) (s : BanState Addr Subnet) : BanState Addr Subnet :=
  { s with misbehaving_capacity := n }

/-- The freshly constructed manager: empty maps, empty ring of zero capacity,
clean. -/
def emptyState : BanState Addr Subnet :=
  ⟨[], [], [], 0, false⟩

/-- The `BanMan` constructor: on a successful store read, restore the snapshot
(`SetBanned`), force the dirty flag back off, then sweep; on a failed read,
force the dirty flag on and flush immediately to recreate the store. -/
def banManInit (N : NetModel Addr Subnet) (now : Int)
    (writer : List (Subnet × CBanEntry) → Bool)
    (readResult : Option (List (Subnet × CBanEntry))) : BanState Addr Subnet :=
  match readResult with
  | some banmap =>
    let s1 := setBanned N banmap (emptyState : BanState Addr Subnet)
    let s2 := { s1 with is_dirty := false }
    (sweepCore now s2).1
  | none =>
    (dumpBanlist N now writer
      { (emptyState : BanState Addr Subnet) with is_dirty := true }).1

/-- `BanMan::IsBanned(CNetAddr)`: an active exact entry, or any active subnet
entry containing the address. -/
def isBannedAddr (N : NetModel Addr Subnet) (now : Int) (a : Addr)
    (s : BanState Addr Subnet) : Bool :=
  (match lookupKey a s.banned_addrs with
   | some e => decide (now < e.nBanUntil)
   | none => false) ||
  s.banned_subnets.any (fun p => decide (now < p.2.nBanUntil) && N.subnetMatch p.1 a)

/-- The subnet loop of `BanMan::IsBannedLevel`, carrying the running level:
an active matching entry with a reason other than `NodeMisbehaving` returns 2
at once; an active matching misbehaving entry raises the level to 1. -/
def levelSubnets (N : NetModel Addr Subnet) (now : Int) (a : Addr) :
    List (Subnet × CBanEntry) → Nat → Nat
  | [], level => level
  | p :: rest, level =>
    if now < p.2.nBanUntil ∧ N.subnetMatch p.1 a = true then
      if p.2.banReason ≠ .NodeMisbehaving then 2
      else levelSubnets N now a rest 1
    else levelSubnets N now a rest level

/-- `BanMan::IsBannedLevel`: the exact-address entry first (an active
non-misbehaving one returns 2 immediately), then the subnet loop. -/
def isBannedLevel (N : NetModel Addr Subnet) (now : Int) (a : Addr)
    (s : BanState Addr Subnet) : Nat :=
  match lookupKey a s.banned_addrs with
  | some e =>
    if now < e.nBanUntil then
      if e.banReason ≠ .NodeMisbehaving then 2
      else levelSubnets N now a s.banned_subnets 1
    else levelSubnets N now a s.banned_subnets 0
  | none => levelSubnets N now a s.banned_subnets 0

end Ops

section MapLemmas

variable {K V : Type} [DecidableEq K]

theorem lookupKey_setKey_self (k : K) (v : V) (l : List (K × V)) :
    lookupKey k (setKey k v l) = some v := by
  induction l with
  | nil => simp [setKey, lookupKey]
  | cons p rest ih =>
    by_cases h : p.1 = k
    · simp [setKey, h, lookupKey]
    · simp [setKey, h, lookupKey, ih]

theorem lookupKey_setKey_ne {k k' : K} (h : k' ≠ k) (v : V) (l : List (K × V)) :
    lookupKey k' (setKey k v l) = lookupKey k' l := by
  have hne : k ≠ k' := fun hk => h hk.symm
  induction l with
  | nil => simp [setKey, lookupKey, hne]
  | cons p rest ih =>
    by_cases hp : p.1 = k
    · subst hp
      simp [setKey, lookupKey, hne]
    · simp [setKey, hp, lookupKey, ih]

theorem lookupKey_eraseKey_ne {k k' : K} (h : k' ≠ k) (l : List (K × V)) :
    lookupKey k' (eraseKey k l) = lookupKey k' l := by
  have hne : k ≠ k' := fun hk => h hk.symm
  induction l with
  | nil => simp [eraseKey]
  | cons p rest ih =>
    by_cases hp : p.1 = k
    · subst hp
      simp [eraseKey, lookupKey, hne]
    · simp [eraseKey, hp, lookupKey, ih]

theorem lookupKey_append_some {k : K} {v : V} {l : List (K × V)}
    (h : lookupKey k l = some v) (l2 : List (K × V)) :
    lookupKey k (l ++ l2) = some v := by
  induction l with
  | nil => simp [lookupKey] at h
  | cons p rest ih =>
    by_cases hp : p.1 = k
    · simp [lookupKey, hp] at h ⊢
      exact h
    · simp [lookupKey, hp] at h ⊢
      exact ih h

theorem lookupKey_append_none {k : K} {l l2 : List (K × V)}
    (h : lookupKey k l = none) :
    lookupKey k (l ++ l2) = lookupKey k l2 := by
  induction l with
  | nil => simp
  | cons p rest ih =>
    by_cases hp : p.1 = k
    · simp [lookupKey, hp] at h
    · simp [lookupKey, hp] at h ⊢
      exact ih h

theorem ensureKey_of_some {k : K} {l : List (K × CBanEntry)}
    (h : (lookupKey k l).isSome) : ensureKey k l = l := by
  unfold ensureKey
  cases hl : lookupKey k l with
  | none => rw [hl] at h; simp at h
  | some v => rfl

theorem lookupKey_ensureKey_of_some {k k' : K} {v : CBanEntry}
    {l : List (K × CBanEntry)} (h : lookupKey k' l = some v) :
    lookupKey k' (ensureKey k l) = some v := by
  unfold ensureKey
  cases hl : lookupKey k l with
  | none => exact lookupKey_append_some h _
  | some w => exact h

theorem lookupKey_ensureKey_self (k : K) (l : List (K × CBanEntry)) :
    lookupKey k (ensureKey k l) = some (mapGetD k l) := by
  unfold ensureKey mapGetD
  cases hl : lookupKey k l with
  | none =>
    rw [lookupKey_append_none hl]
    simp [lookupKey]
  | some v => simp [hl]

theorem setKey_of_lookup_none {k : K} {l : List (K × V)}
    (h : lookupKey k l = none) (v : V) : setKey k v l = l ++ [(k, v)] := by
  induction l with
  | nil => simp [setKey]
  | cons p rest ih =>
    by_cases hp : p.1 = k
    · simp [lookupKey, hp] at h
    · simp [lookupKey, hp] at h
      simp [setKey, hp, ih h]

theorem eraseKey_append_of_some {k : K} {l : List (K × V)}
    (h : (lookupKey k l).isSome) (l2 : List (K × V)) :
    eraseKey k (l ++ l2) = eraseKey k l ++ l2 := by
  induction l with
  | nil => simp [lookupKey] at h
  | cons p rest ih =>
    by_cases hp : p.1 = k
    · simp [eraseKey, hp]
    · simp [lookupKey, hp] at h
      simp [eraseKey, hp, ih h]

theorem lookupKey_eraseKey_self_of_nodup {k : K} {l : List (K × V)}
    (h : (l.map Prod.fst).Nodup) : lookupKey k (eraseKey k l) = none := by
  induction l with
  | nil => simp [eraseKey, lookupKey]
  | cons p rest ih =>
    simp only [List.map_cons, List.nodup_cons] at h
    by_cases hp : p.1 = k
    · subst hp
      simp only [eraseKey, if_pos rfl]
      cases hrest : lookupKey p.1 rest with
      | none => exact hrest
      | some v =>
        exfalso
        apply h.1
        clear ih h
        induction rest with
        | nil => simp [lookupKey] at hrest
        | cons q r ihq =>
          by_cases hq : q.1 = p.1
          · simp [hq]
          · simp [lookupKey, hq] at hrest
            simp [ihq hrest]
    · simp [eraseKey, hp, lookupKey, ih h.2]

theorem lookupKey_filter_none {k : K} {l : List (K × V)} (p : K × V → Bool)
    (h : lookupKey k l = none) : lookupKey k (l.filter p) = none := by
  induction l with
  | nil => simp [lookupKey]
  | cons q rest ih =>
    by_cases hq : q.1 = k
    · simp [lookupKey, hq] at h
    · simp only [lookupKey, if_neg hq] at h
      by_cases hpq : p q
      · simp [List.filter_cons, hpq, lookupKey, hq, ih h]
      · simp [List.filter_cons, hpq, ih h]

theorem nodup_append_singleton {l : List K} {a : K} (h1 : l.Nodup) (h2 : a ∉ l) :
    (l ++ [a]).Nodup := by
  simp [List.nodup_append, h1, h2]

end MapLemmas

section SweepLemmas

variable {K : Type}

theorem sweepList_eq_filter (now : Int) (l : List (K × CBanEntry)) :
    (sweepList now l).1 = l.filter (fun p => decide (now ≤ p.2.nBanUntil)) := by
  induction l with
  | nil => rfl
  | cons p rest ih =>
    by_cases h : now > p.2.nBanUntil
    · have : ¬ now ≤ p.2.nBanUntil := by omega
      simp [sweepList, h, List.filter_cons, this, ih]
    · have : now ≤ p.2.nBanUntil := by omega
      simp [sweepList, h, List.filter_cons, this, ih]

theorem sweepList_removed_iff (now : Int) (l : List (K × CBanEntry)) :
    (sweepList now l).2 = l.any (fun p => decide (p.2.nBanUntil < now)) := by
  induction l with
  | nil => rfl
  | cons p rest ih =>
    by_cases h : now > p.2.nBanUntil
    · have h' : p.2.nBanUntil < now := h
      simp [sweepList, h, h']
    · have h' : ¬ p.2.nBanUntil < now := by omega
      simp [sweepList, h, ih, h']

theorem sweepList_of_none_expired (now : Int) (l : List (K × CBanEntry))
    (h : ∀ p ∈ l, now ≤ p.2.nBanUntil) : sweepList now l = (l, false) := by
  induction l with
  | nil => rfl
  | cons p rest ih =>
    have hp : ¬ now > p.2.nBanUntil := by
      have := h p (by simp)
      omega
    have := ih (fun q hq => h q (by simp [hq]))
    simp [sweepList, hp, this]

theorem sweepList_idem (now : Int) (l : List (K × CBanEntry)) :
    sweepList now (sweepList now l).1 = ((sweepList now l).1, false) := by
  apply sweepList_of_none_expired
  intro p hp
  rw [sweepList_eq_filter] at hp
  have := List.of_mem_filter hp
  simpa using this

end SweepLemmas

section CoreLemmas

variable {Addr Subnet : Type} [DecidableEq Addr] [DecidableEq Subnet]

theorem sweepCore_ring (now : Int) (s : BanState Addr Subnet) :
    (sweepCore now s).1.misbehaving_addrs = s.misbehaving_addrs ∧
    (sweepCore now s).1.misbehaving_capacity = s.misbehaving_capacity := by
  simp [sweepCore]

theorem sweepCore_idem (now : Int) (s : BanState Addr Subnet) :
    (sweepCore now (sweepCore now s).1).1 = (sweepCore now s).1 := by
  simp [sweepCore, sweepList_idem]

theorem sweepCore_of_clean_unexpired (now : Int) (s : BanState Addr Subnet)
    (ha : ∀ p ∈ s.banned_addrs, now ≤ p.2.nBanUntil)
    (hs : ∀ p ∈ s.banned_subnets, now ≤ p.2.nBanUntil) :
    sweepCore now s = (s, false) := by
  simp [sweepCore, sweepList_of_none_expired now _ ha,
    sweepList_of_none_expired now _ hs]

end CoreLemmas

/-- A concrete network model for evaluating the development: addresses are
naturals, a subnet is either a single address or an interval. -/
def NatNet : NetModel Nat (Sum Nat (Nat × Nat)) where
  isSingleAddr := fun sn => match sn with
    | .inl a => some a
    | .inr _ => none
  subnetMatch := fun sn b => match sn with
    | .inl a => a == b
    | .inr r => r.1 ≤ b && b ≤ r.2
  ofAddr := .inl
  ofAddr_single := fun _ => rfl

section ClaimC3

variable {Addr Subnet : Type} [DecidableEq Addr] [DecidableEq Subnet]

/-- C3, counterexample: the claim says sweep removes every entry with
`bannedUntil <= now`, but the source erases only on `now > nBanUntil`.  An
exact-address entry with `bannedUntil = 5` survives `sweep(5)` even though
`bannedUntil ≤ now`. -/
theorem C3_counterexample :
    let s : BanState Nat (Sum Nat (Nat × Nat)) :=
      ⟨[(0, ⟨0, 5, .Unknown⟩)], [], [], 0, false⟩
    (5 : Int) ≤ 5 ∧
      (sweepCore 5 s).1.banned_addrs = [(0, ⟨0, 5, .Unknown⟩)] := by
  exact ⟨by decide, rfl⟩

/-- C3, amended: `sweep(now)` removes exactly the exact-address and subnet
entries with `bannedUntil < now` (strict): both maps become their filtered
versions with the surviving entries unchanged and in order, and an entry is
retained if and only if `now ≤ bannedUntil`. -/
theorem C3_sweep_exact (now : Int) (s : BanState Addr Subnet) :
    (sweepCore now s).1.banned_addrs
        = s.banned_addrs.filter (fun p => decide (now ≤ p.2.nBanUntil)) ∧
    (sweepCore now s).1.banned_subnets
        = s.banned_subnets.filter (fun p => decide (now ≤ p.2.nBanUntil)) ∧
    (∀ p, p ∈ (sweepCore now s).1.banned_addrs ↔
        p ∈ s.banned_addrs ∧ now ≤ p.2.nBanUntil) ∧
    (∀ p, p ∈ (sweepCore now s).1.banned_subnets ↔
        p ∈ s.banned_subnets ∧ now ≤ p.2.nBanUntil) := by
  refine ⟨?_, ?_, ?_, ?_⟩
  · simp [sweepCore, sweepList_eq_filter]
  · simp [sweepCore, sweepList_eq_filter]
  · intro p
    simp [sweepCore, sweepList_eq_filter, List.mem_filter]
  · intro p
    simp [sweepCore, sweepList_eq_filter, List.mem_filter]

end ClaimC3

section ClaimC5

variable {Addr Subnet : Type} [DecidableEq Addr] [DecidableEq Subnet]

/-- C5, counterexample: the claim says `DumpBanlist` is a no-op whenever the
dirty flag is clear, but the source sweeps before checking the flag.  On a
clean state holding one expired entry, the flush removes the entry and even
performs a store write. -/
theorem C5_counterexample :
    let s : BanState Nat (Sum Nat (Nat × Nat)) :=
      ⟨[(0, ⟨0, 5, .Unknown⟩)], [], [], 0, false⟩
    let w : List ((Sum Nat (Nat × Nat)) × CBanEntry) → Bool := fun _ => true
    s.is_dirty = false ∧
      (dumpBanlist NatNet 10 w s).1.banned_addrs = [] ∧
      (dumpBanlist NatNet 10 w s).2 = true := by
  exact ⟨rfl, rfl, rfl⟩

/-- C5, amended: `DumpBanlist` first sweeps; it is a no-op (table, ring and
store untouched) exactly when the dirty flag is clear and no entry has
expired.  Whenever the state is dirty after the sweep — because it was
already dirty or because the sweep removed something — it exports the swept
snapshot and hands it to the durable-store writer, marking clean exactly when
the write succeeds and remaining dirty when it fails. -/
theorem C5_dump_gate (N : NetModel Addr Subnet) (now : Int)
    (writer : List (Subnet × CBanEntry) → Bool) (s : BanState Addr Subnet) :
    (s.is_dirty = false →
      (∀ p ∈ s.banned_addrs, now ≤ p.2.nBanUntil) →
      (∀ p ∈ s.banned_subnets, now ≤ p.2.nBanUntil) →
      dumpBanlist N now writer s = (s, false)) ∧
    ((sweepCore now s).1.is_dirty = true →
      dumpBanlist N now writer s =
        (if writer (banmapOf N (sweepCore now s).1)
          then ({ (sweepCore now s).1 with is_dirty := false }, true)
          else ((sweepCore now s).1, true))) := by
  constructor
  · intro hclean ha hs
    unfold dumpBanlist
    rw [sweepCore_of_clean_unexpired now s ha hs]
    simp [hclean]
  · intro hdirty
    simp only [dumpBanlist, hdirty, Bool.true_eq_false, if_false, sweepCore_idem]

/-- Witness for the amended C5 at concrete inputs: a clean, unexpired state is
left untouched with no write, and a dirty state is swept, written and marked
clean. -/
theorem C5_dump_gate_witness :
    (dumpBanlist NatNet 3 (fun _ => true)
        (emptyState : BanState Nat (Sum Nat (Nat × Nat)))
      = (emptyState, false)) ∧
    (dumpBanlist NatNet 3 (fun _ => true)
        (⟨[(0, ⟨0, 5, .Unknown⟩)], [], [], 0, true⟩ :
          BanState Nat (Sum Nat (Nat × Nat)))
      = (if (fun _ => true) (banmapOf NatNet
            (sweepCore 3 (⟨[(0, ⟨0, 5, .Unknown⟩)], [], [], 0, true⟩ :
              BanState Nat (Sum Nat (Nat × Nat)))).1)
          then ({ (sweepCore 3 (⟨[(0, ⟨0, 5, .Unknown⟩)], [], [], 0, true⟩ :
              BanState Nat (Sum Nat (Nat × Nat)))).1 with is_dirty := false }, true)
          else ((sweepCore 3 (⟨[(0, ⟨0, 5, .Unknown⟩)], [], [], 0, true⟩ :
              BanState Nat (Sum Nat (Nat × Nat)))).1, true))) :=
  ⟨(C5_dump_gate NatNet 3 (fun _ => true) _).1 rfl
      (by intro p hp; simp [emptyState] at hp)
      (by intro p hp; simp [emptyState] at hp),
   (C5_dump_gate NatNet 3 (fun _ => true) _).2 rfl⟩

end ClaimC5

section ClaimC6

variable {Addr Subnet : Type} [DecidableEq Addr] [DecidableEq Subnet]

theorem dumpBanlist_empty_dirty (N : NetModel Addr Subnet) (now : Int)
    (writer : List (Subnet × CBanEntry) → Bool) :
    (dumpBanlist N now writer
        { (emptyState : BanState Addr Subnet) with is_dirty := true }).2 = true ∧
    (dumpBanlist N now writer
        { (emptyState : BanState Addr Subnet) with is_dirty := true }).1.banned_addrs
      = [] ∧
    (dumpBanlist N now writer
        { (emptyState : BanState Addr Subnet) with is_dirty := true }).1.banned_subnets
      = [] := by
  unfold dumpBanlist sweepCore sweepList emptyState banmapOf
  cases hw : writer [] <;> simp [hw]

/-- C6, counterexample: the claim says a successful start ends with the dirty
flag clear, but the constructor marks clean *before* sweeping, and the sweep
re-dirties the state when it discards an expired entry.  Loading a snapshot
holding one already-expired entry ends the start sequence dirty. -/
theorem C6_counterexample :
    (banManInit NatNet 10 (fun _ => true)
        (some [(NatNet.ofAddr 7, ⟨0, 5, .NodeMisbehaving⟩)])).is_dirty = true ∧
    (banManInit NatNet 10 (fun _ => true)
        (some [(NatNet.ofAddr 7, ⟨0, 5, .NodeMisbehaving⟩)])).banned_addrs = [] := by
  exact ⟨rfl, rfl⟩

/-- C6, amended: on a successful read the constructor restores the snapshot,
marks clean, then sweeps, so the final table is the restored one with the
already-expired entries discarded, and the start sequence ends clean if and
only if nothing in the restored snapshot had expired (otherwise the removal
leaves the state dirty, to be persisted by a later flush).  On a failed read
it starts with both maps empty, forces the dirty flag, and immediately
attempts a flush to recreate the store. -/
theorem C6_start (N : NetModel Addr Subnet) (now : Int)
    (writer : List (Subnet × CBanEntry) → Bool) (bm : List (Subnet × CBanEntry)) :
    ((banManInit N now writer (some bm)).banned_addrs
        = (setBanned N bm (emptyState : BanState Addr Subnet)).banned_addrs.filter
            (fun p => decide (now ≤ p.2.nBanUntil))) ∧
    ((banManInit N now writer (some bm)).banned_subnets
        = (setBanned N bm (emptyState : BanState Addr Subnet)).banned_subnets.filter
            (fun p => decide (now ≤ p.2.nBanUntil))) ∧
    ((banManInit N now writer (some bm)).is_dirty = false ↔
      (∀ p ∈ (setBanned N bm (emptyState : BanState Addr Subnet)).banned_addrs,
          now ≤ p.2.nBanUntil) ∧
      (∀ p ∈ (setBanned N bm (emptyState : BanState Addr Subnet)).banned_subnets,
          now ≤ p.2.nBanUntil)) ∧
    (banManInit N now writer none
        = (dumpBanlist N now writer
            { (emptyState : BanState Addr Subnet) with is_dirty := true }).1) ∧
    ((dumpBanlist N now writer
        { (emptyState : BanState Addr Subnet) with is_dirty := true }).2 = true) ∧
    (banManInit N now writer none).banned_addrs = [] ∧
    (banManInit N now writer none).banned_subnets = [] := by
  refine ⟨?_, ?_, ?_, rfl, ?_, ?_, ?_⟩
  · simp [banManInit, sweepCore, sweepList_eq_filter]
  · simp [banManInit, sweepCore, sweepList_eq_filter]
  · simp only [banManInit, sweepCore, Bool.false_or, Bool.or_eq_false_iff,
      sweepList_removed_iff]
    constructor
    · intro h
      constructor
      · intro p hp
        have := h.2
        rw [List.any_eq_false] at this
        have := this p hp
        simp at this
        omega
      · intro p hp
        have := h.1
        rw [List.any_eq_false] at this
        have := this p hp
        simp at this
        omega
    · intro h
      constructor
      · rw [List.any_eq_false]
        intro p hp
        have := h.2 p hp
        simp
        omega
      · rw [List.any_eq_false]
        intro p hp
        have := h.1 p hp
        simp
        omega
  · exact (dumpBanlist_empty_dirty N now writer).1
  · exact (dumpBanlist_empty_dirty N now writer).2.1
  · exact (dumpBanlist_empty_dirty N now writer).2.2

end ClaimC6

section DumpLemmas

variable {Addr Subnet : Type} [DecidableEq Addr] [DecidableEq Subnet]

theorem dumpBanlist_ring (N : NetModel Addr Subnet) (now : Int)
    (writer : List (Subnet × CBanEntry) → Bool) (s : BanState Addr Subnet) :
    (dumpBanlist N now writer s).1.misbehaving_addrs = s.misbehaving_addrs ∧
    (dumpBanlist N now writer s).1.misbehaving_capacity = s.misbehaving_capacity := by
  simp only [dumpBanlist]
  split_ifs <;> simp [sweepCore]

theorem sweepCore_lookup_addr_none (now : Int) (s : BanState Addr Subnet) {k : Addr}
    (h : lookupKey k s.banned_addrs = none) :
    lookupKey k (sweepCore now s).1.banned_addrs = none := by
  simp only [sweepCore, sweepList_eq_filter]
  exact lookupKey_filter_none _ h

theorem sweepCore_lookup_subnet_none (now : Int) (s : BanState Addr Subnet) {k : Subnet}
    (h : lookupKey k s.banned_subnets = none) :
    lookupKey k (sweepCore now s).1.banned_subnets = none := by
  simp only [sweepCore, sweepList_eq_filter]
  exact lookupKey_filter_none _ h

theorem dumpBanlist_lookup_addr_none (N : NetModel Addr Subnet) (now : Int)
    (writer : List (Subnet × CBanEntry) → Bool) (s : BanState Addr Subnet) {k : Addr}
    (h : lookupKey k s.banned_addrs = none) :
    lookupKey k (dumpBanlist N now writer s).1.banned_addrs = none := by
  have h1 := sweepCore_lookup_addr_none (k := k) now s h
  have h2 := sweepCore_lookup_addr_none (k := k) now (sweepCore now s).1 h1
  simp only [dumpBanlist]
  split_ifs with hd hw
  · exact h1
  · simpa using h2
  · exact h2

theorem dumpBanlist_lookup_subnet_none (N : NetModel Addr Subnet) (now : Int)
    (writer : List (Subnet × CBanEntry) → Bool) (s : BanState Addr Subnet) {k : Subnet}
    (h : lookupKey k s.banned_subnets = none) :
    lookupKey k (dumpBanlist N now writer s).1.banned_subnets = none := by
  have h1 := sweepCore_lookup_subnet_none (k := k) now s h
  have h2 := sweepCore_lookup_subnet_none (k := k) now (sweepCore now s).1 h1
  simp only [dumpBanlist]
  split_ifs with hd hw
  · exact h1
  · simpa using h2
  · exact h2

theorem banWithEntry_false_fields (N : NetModel Addr Subnet) (sub : Subnet)
    (reason : BanReason) (entry : CBanEntry) (s : BanState Addr Subnet)
    (h : (banWithEntry N sub reason entry s).2 = false) :
    (banWithEntry N sub reason entry s).1.is_dirty = s.is_dirty ∧
    (banWithEntry N sub reason entry s).1.misbehaving_addrs = s.misbehaving_addrs ∧
    (banWithEntry N sub reason entry s).1.misbehaving_capacity
      = s.misbehaving_capacity := by
  cases hs : N.isSingleAddr sub with
  | some a =>
    simp only [banWithEntry, hs] at h ⊢
    split_ifs at h ⊢ <;> simp_all
  | none =>
    simp only [banWithEntry, hs] at h ⊢
    split_ifs at h ⊢ <;> simp_all

end DumpLemmas

section ClaimC9

variable {Addr Subnet : Type} [DecidableEq Addr] [DecidableEq Subnet]

/-- C9: every successful removal in `Unban` is followed by an immediate
synchronous `DumpBanlist`, whatever the removed entry's reason was — the
flush is unconditional on the removal path (and the observers are notified). -/
theorem C9_unban_flushes (N : NetModel Addr Subnet) (now : Int)
    (writer : List (Subnet × CBanEntry) → Bool) (sub : Subnet)
    (s : BanState Addr Subnet) (h : (unbanCore N sub s).2 = true) :
    unbanFull N now writer sub s
      = ((dumpBanlist N now writer (unbanCore N sub s).1).1, true, true) := by
  simp only [unbanFull, h, if_true]

/-- Witness for C9: unbanning an address banned with reason `Unknown` (not a
manual operator action) still flushes. -/
theorem C9_unban_flushes_witness :
    unbanFull NatNet 1 (fun _ => true) (NatNet.ofAddr 4)
        (⟨[(4, ⟨0, 50, .Unknown⟩)], [], [], 0, false⟩ :
          BanState Nat (Sum Nat (Nat × Nat)))
      = ((dumpBanlist NatNet 1 (fun _ => true)
            (unbanCore NatNet (NatNet.ofAddr 4)
              (⟨[(4, ⟨0, 50, .Unknown⟩)], [], [], 0, false⟩ :
                BanState Nat (Sum Nat (Nat × Nat)))).1).1, true, true) :=
  C9_unban_flushes NatNet 1 (fun _ => true) (NatNet.ofAddr 4) _ (by decide)

end ClaimC9

section ClaimC10

variable {Addr Subnet : Type} [DecidableEq Addr] [DecidableEq Subnet]

/-- C10: a `Ban` call that does not apply — rejected because the existing
reason is `ManuallyAdded` and the new one is not, or a no-op because the
existing ban is at least as long with no reason upgrade — returns before the
dirty-flag write, the observer notification and the manual-ban flush, so the
dirty flag is unchanged and neither a notification nor a durable flush
happens, whatever the requested reason (including `ManuallyAdded`). -/
theorem C10_inapplicable_ban_silent (N : NetModel Addr Subnet) (now dflt : Int)
    (sub : Subnet) (reason : BanReason) (offset : Int) (epoch : Bool)
    (writer : List (Subnet × CBanEntry) → Bool) (s : BanState Addr Subnet)
    (h : (banFull N now dflt sub reason offset epoch writer s).2.1 = false) :
    (banFull N now dflt sub reason offset epoch writer s).1.is_dirty = s.is_dirty ∧
    (banFull N now dflt sub reason offset epoch writer s).2.2.1 = false ∧
    (banFull N now dflt sub reason offset epoch writer s).2.2.2 = false := by
  by_cases hr : (banWithEntry N sub reason
      ⟨now, banUntil now dflt offset epoch, reason⟩ s).2 = true
  · exfalso
    simp only [banFull, hr, if_true] at h
    split_ifs at h <;> simp at h
  · simp only [Bool.not_eq_true] at hr
    have hfields := banWithEntry_false_fields N sub reason
      ⟨now, banUntil now dflt offset epoch, reason⟩ s hr
    refine ⟨?_, ?_, ?_⟩
    · simp only [banFull, hr, Bool.false_eq_true, if_false]
      exact hfields.1
    · simp [banFull, hr]
    · simp [banFull, hr]

/-- Witness for C10: a `ManuallyAdded` re-ban with a shorter expiry than the
existing manual ban is a no-op that leaves the dirty flag clear and triggers
neither notification nor flush. -/
theorem C10_inapplicable_ban_silent_witness :
    (banFull NatNet 1 100 (NatNet.ofAddr 0) .ManuallyAdded 49 false (fun _ => true)
        (⟨[(0, ⟨0, 100, .ManuallyAdded⟩)], [], [], 0, false⟩ :
          BanState Nat (Sum Nat (Nat × Nat)))).1.is_dirty
      = (⟨[(0, ⟨0, 100, .ManuallyAdded⟩)], [], [], 0, false⟩ :
          BanState Nat (Sum Nat (Nat × Nat))).is_dirty ∧
    (banFull NatNet 1 100 (NatNet.ofAddr 0) .ManuallyAdded 49 false (fun _ => true)
        (⟨[(0, ⟨0, 100, .ManuallyAdded⟩)], [], [], 0, false⟩ :
          BanState Nat (Sum Nat (Nat × Nat)))).2.2.1 = false ∧
    (banFull NatNet 1 100 (NatNet.ofAddr 0) .ManuallyAdded 49 false (fun _ => true)
        (⟨[(0, ⟨0, 100, .ManuallyAdded⟩)], [], [], 0, false⟩ :
          BanState Nat (Sum Nat (Nat × Nat)))).2.2.2 = false :=
  C10_inapplicable_ban_silent NatNet 1 100 (NatNet.ofAddr 0) .ManuallyAdded 49 false
    (fun _ => true) _ (by decide)

end ClaimC10

section ClaimC8

variable {Addr Subnet : Type} [DecidableEq Addr] [DecidableEq Subnet]

/-- C8: `Unban` on a key absent from the relevant map returns `false` with no
state change at all — no table, ring or dirty-flag change, no notification,
no flush; on a present key it returns `true`, the entry is gone from its map
afterwards (given well-formed unique keys), and, for an exact address whose
entry's reason was `NodeMisbehaving`, the address is also removed from the
misbehavior ring. -/
theorem C8_unban_removal (N : NetModel Addr Subnet) (now : Int)
    (writer : List (Subnet × CBanEntry) → Bool) (sub : Subnet)
    (s : BanState Addr Subnet) :
    (∀ a, N.isSingleAddr sub = some a → lookupKey a s.banned_addrs = none →
      unbanFull N now writer sub s = (s, false, false)) ∧
    (N.isSingleAddr sub = none → lookupKey sub s.banned_subnets = none →
      unbanFull N now writer sub s = (s, false, false)) ∧
    (∀ a e, N.isSingleAddr sub = some a → lookupKey a s.banned_addrs = some e →
      (s.banned_addrs.map Prod.fst).Nodup →
      (unbanFull N now writer sub s).2.1 = true ∧
      lookupKey a (unbanFull N now writer sub s).1.banned_addrs = none ∧
      (unbanFull N now writer sub s).1.misbehaving_addrs =
        (if e.banReason = .NodeMisbehaving then s.misbehaving_addrs.erase a
          else s.misbehaving_addrs)) ∧
    (∀ e, N.isSingleAddr sub = none → lookupKey sub s.banned_subnets = some e →
      (s.banned_subnets.map Prod.fst).Nodup →
      (unbanFull N now writer sub s).2.1 = true ∧
      lookupKey sub (unbanFull N now writer sub s).1.banned_subnets = none) := by
  refine ⟨?_, ?_, ?_, ?_⟩
  · intro a hs hl
    simp only [unbanFull, unbanCore, hs, hl, Bool.false_eq_true, if_false]
  · intro hs hl
    simp only [unbanFull, unbanCore, hs, hl, Bool.false_eq_true, if_false]
  · intro a e hs hl hnd
    have hcore : unbanCore N sub s =
        ({ s with
            banned_addrs := eraseKey a s.banned_addrs,
            misbehaving_addrs :=
              if e.banReason = .NodeMisbehaving then s.misbehaving_addrs.erase a
              else s.misbehaving_addrs,
            is_dirty := true }, true) := by
      simp only [unbanCore, hs, hl]
    have hskip : unbanFull N now writer sub s
        = ((dumpBanlist N now writer (unbanCore N sub s).1).1, true, true) := by
      simp only [unbanFull, hcore, if_true]
    refine ⟨by rw [hskip], ?_, ?_⟩
    · rw [hskip, hcore]
      exact dumpBanlist_lookup_addr_none N now writer _
        (lookupKey_eraseKey_self_of_nodup hnd)
    · rw [hskip, hcore]
      exact (dumpBanlist_ring N now writer _).1
  · intro e hs hl hnd
    have hcore : unbanCore N sub s =
        ({ s with
            banned_subnets := eraseKey sub s.banned_subnets,
            is_dirty := true }, true) := by
      simp only [unbanCore, hs, hl]
    have hskip : unbanFull N now writer sub s
        = ((dumpBanlist N now writer (unbanCore N sub s).1).1, true, true) := by
      simp only [unbanFull, hcore, if_true]
    refine ⟨by rw [hskip], ?_⟩
    rw [hskip, hcore]
    exact dumpBanlist_lookup_subnet_none N now writer _
      (lookupKey_eraseKey_self_of_nodup hnd)

/-- Witness for C8 at concrete inputs: an absent exact address and an absent
subnet are no-ops reporting `false`; a present misbehaving exact address is
removed from both the map and the ring; a present subnet is removed. -/
theorem C8_unban_removal_witness :
    (unbanFull NatNet 1 (fun _ => true) (NatNet.ofAddr 9)
        (⟨[(4, ⟨0, 50, .NodeMisbehaving⟩)], [(Sum.inr (7, 8), ⟨0, 50, .Unknown⟩)],
          [4], 5, false⟩ : BanState Nat (Sum Nat (Nat × Nat)))
      = (⟨[(4, ⟨0, 50, .NodeMisbehaving⟩)], [(Sum.inr (7, 8), ⟨0, 50, .Unknown⟩)],
          [4], 5, false⟩, false, false)) ∧
    (unbanFull NatNet 1 (fun _ => true) (Sum.inr (1, 2))
        (⟨[(4, ⟨0, 50, .NodeMisbehaving⟩)], [(Sum.inr (7, 8), ⟨0, 50, .Unknown⟩)],
          [4], 5, false⟩ : BanState Nat (Sum Nat (Nat × Nat)))
      = (⟨[(4, ⟨0, 50, .NodeMisbehaving⟩)], [(Sum.inr (7, 8), ⟨0, 50, .Unknown⟩)],
          [4], 5, false⟩, false, false)) ∧
    ((unbanFull NatNet 1 (fun _ => true) (NatNet.ofAddr 4)
        (⟨[(4, ⟨0, 50, .NodeMisbehaving⟩)], [(Sum.inr (7, 8), ⟨0, 50, .Unknown⟩)],
          [4], 5, false⟩ : BanState Nat (Sum Nat (Nat × Nat)))).2.1 = true ∧
      lookupKey 4 (unbanFull NatNet 1 (fun _ => true) (NatNet.ofAddr 4)
        (⟨[(4, ⟨0, 50, .NodeMisbehaving⟩)], [(Sum.inr (7, 8), ⟨0, 50, .Unknown⟩)],
          [4], 5, false⟩ : BanState Nat (Sum Nat (Nat × Nat)))).1.banned_addrs
        = none ∧
      (unbanFull NatNet 1 (fun _ => true) (NatNet.ofAddr 4)
        (⟨[(4, ⟨0, 50, .NodeMisbehaving⟩)], [(Sum.inr (7, 8), ⟨0, 50, .Unknown⟩)],
          [4], 5, false⟩ : BanState Nat (Sum Nat (Nat × Nat)))).1.misbehaving_addrs
        = (if (CBanEntry.mk 0 50 .NodeMisbehaving).banReason = .NodeMisbehaving
            then [4].erase 4 else [4])) ∧
    ((unbanFull NatNet 1 (fun _ => true) (Sum.inr (7, 8))
        (⟨[(4, ⟨0, 50, .NodeMisbehaving⟩)], [(Sum.inr (7, 8), ⟨0, 50, .Unknown⟩)],
          [4], 5, false⟩ : BanState Nat (Sum Nat (Nat × Nat)))).2.1 = true ∧
      lookupKey (Sum.inr (7, 8)) (unbanFull NatNet 1 (fun _ => true) (Sum.inr (7, 8))
        (⟨[(4, ⟨0, 50, .NodeMisbehaving⟩)], [(Sum.inr (7, 8), ⟨0, 50, .Unknown⟩)],
          [4], 5, false⟩ : BanState Nat (Sum Nat (Nat × Nat)))).1.banned_subnets
        = none) :=
  ⟨(C8_unban_removal NatNet 1 (fun _ => true) (NatNet.ofAddr 9) _).1 9 rfl (by decide),
   (C8_unban_removal NatNet 1 (fun _ => true) (Sum.inr (1, 2)) _).2.1 rfl (by decide),
   (C8_unban_removal NatNet 1 (fun _ => true) (NatNet.ofAddr 4) _).2.2.1 4
      ⟨0, 50, .NodeMisbehaving⟩ rfl (by decide) (by decide),
   (C8_unban_removal NatNet 1 (fun _ => true) (Sum.inr (7, 8)) _).2.2.2
      ⟨0, 50, .Unknown⟩ rfl (by decide) (by decide)⟩

end ClaimC8

section BanLemmas

variable {Addr Subnet : Type} [DecidableEq Addr] [DecidableEq Subnet]

theorem banWithEntry_single_reject (N : NetModel Addr Subnet) (sub : Subnet)
    (a : Addr) (reason : BanReason) (entry : CBanEntry) (s : BanState Addr Subnet)
    (hs : N.isSingleAddr sub = some a)
    (hrej : (mapGetD a s.banned_addrs).banReason = .ManuallyAdded ∧
      reason ≠ .ManuallyAdded) :
    banWithEntry N sub reason entry s = (s, false) := by
  have hsome : (lookupKey a s.banned_addrs).isSome := by
    cases hl : lookupKey a s.banned_addrs with
    | none =>
      exfalso
      rw [mapGetD, hl] at hrej
      simp [CBanEntry.null] at hrej
    | some e => rfl
  simp only [banWithEntry, hs, if_pos hrej, ensureKey_of_some hsome]

theorem banWithEntry_single_apply (N : NetModel Addr Subnet) (sub : Subnet)
    (a : Addr) (reason : BanReason) (entry : CBanEntry) (s : BanState Addr Subnet)
    (hs : N.isSingleAddr sub = some a)
    (hrej : ¬((mapGetD a s.banned_addrs).banReason = .ManuallyAdded ∧
      reason ≠ .ManuallyAdded))
    (hcond : (mapGetD a s.banned_addrs).nBanUntil < entry.nBanUntil ∨
      ((mapGetD a s.banned_addrs).banReason = .NodeMisbehaving ∧
        reason ≠ .NodeMisbehaving)) :
    banWithEntry N sub reason entry s =
      (let s1 := banRingUpdate a reason (mapGetD a s.banned_addrs)
        { s with banned_addrs := ensureKey a s.banned_addrs }
       ({ s1 with banned_addrs := setKey a entry s1.banned_addrs, is_dirty := true },
        true)) := by
  simp only [banWithEntry, hs, if_neg hrej, if_pos hcond]

theorem banWithEntry_single_noop (N : NetModel Addr Subnet) (sub : Subnet)
    (a : Addr) (reason : BanReason) (entry : CBanEntry) (s : BanState Addr Subnet)
    (hs : N.isSingleAddr sub = some a)
    (hrej : ¬((mapGetD a s.banned_addrs).banReason = .ManuallyAdded ∧
      reason ≠ .ManuallyAdded))
    (hcond : ¬((mapGetD a s.banned_addrs).nBanUntil < entry.nBanUntil ∨
      ((mapGetD a s.banned_addrs).banReason = .NodeMisbehaving ∧
        reason ≠ .NodeMisbehaving))) :
    banWithEntry N sub reason entry s =
      ({ s with banned_addrs := ensureKey a s.banned_addrs }, false) := by
  simp only [banWithEntry, hs, if_neg hrej, if_neg hcond]

theorem banWithEntry_subnet_reject (N : NetModel Addr Subnet) (sub : Subnet)
    (reason : BanReason) (entry : CBanEntry) (s : BanState Addr Subnet)
    (hs : N.isSingleAddr sub = none)
    (hrej : (mapGetD sub s.banned_subnets).banReason = .ManuallyAdded ∧
      reason ≠ .ManuallyAdded) :
    banWithEntry N sub reason entry s = (s, false) := by
  have hsome : (lookupKey sub s.banned_subnets).isSome := by
    cases hl : lookupKey sub s.banned_subnets with
    | none =>
      exfalso
      rw [mapGetD, hl] at hrej
      simp [CBanEntry.null] at hrej
    | some e => rfl
  simp only [banWithEntry, hs, if_pos hrej, ensureKey_of_some hsome]

theorem banWithEntry_subnet_apply (N : NetModel Addr Subnet) (sub : Subnet)
    (reason : BanReason) (entry : CBanEntry) (s : BanState Addr Subnet)
    (hs : N.isSingleAddr sub = none)
    (hrej : ¬((mapGetD sub s.banned_subnets).banReason = .ManuallyAdded ∧
      reason ≠ .ManuallyAdded))
    (hcond : (mapGetD sub s.banned_subnets).nBanUntil < entry.nBanUntil ∨
      ((mapGetD sub s.banned_subnets).banReason = .NodeMisbehaving ∧
        reason ≠ .NodeMisbehaving)) :
    banWithEntry N sub reason entry s =
      ({ { s with banned_subnets := ensureKey sub s.banned_subnets } with
          banned_subnets :=
            setKey sub entry (ensureKey sub s.banned_subnets), is_dirty := true },
        true) := by
  simp only [banWithEntry, hs, if_neg hrej, if_pos hcond]

theorem banWithEntry_subnet_noop (N : NetModel Addr Subnet) (sub : Subnet)
    (reason : BanReason) (entry : CBanEntry) (s : BanState Addr Subnet)
    (hs : N.isSingleAddr sub = none)
    (hrej : ¬((mapGetD sub s.banned_subnets).banReason = .ManuallyAdded ∧
      reason ≠ .ManuallyAdded))
    (hcond : ¬((mapGetD sub s.banned_subnets).nBanUntil < entry.nBanUntil ∨
      ((mapGetD sub s.banned_subnets).banReason = .NodeMisbehaving ∧
        reason ≠ .NodeMisbehaving))) :
    banWithEntry N sub reason entry s =
      ({ s with banned_subnets := ensureKey sub s.banned_subnets }, false) := by
  simp only [banWithEntry, hs, if_neg hrej, if_neg hcond]

end BanLemmas

section ClaimC1

variable {Addr Subnet : Type} [DecidableEq Addr] [DecidableEq Subnet]

/-- C1, counterexample: the claim says every ban call that neither rejects
nor applies is a no-op on the table, but the source reads the existing entry
through `std::map::operator[]`, which inserts a default entry for an absent
key even when the call then returns without applying.  Requesting
`requestedUntil = 0` for an absent address applies nothing (`0 < 0` fails,
no upgrade from `Unknown`), yet the table gains the neutral entry. -/
theorem C1_counterexample :
    (banWithEntry NatNet (NatNet.ofAddr 0) .Unknown ⟨0, 0, .Unknown⟩
        (emptyState : BanState Nat (Sum Nat (Nat × Nat)))).2 = false ∧
    (banWithEntry NatNet (NatNet.ofAddr 0) .Unknown ⟨0, 0, .Unknown⟩
        (emptyState : BanState Nat (Sum Nat (Nat × Nat)))).1.banned_addrs
      = [(0, CBanEntry.null)] ∧
    (emptyState : BanState Nat (Sum Nat (Nat × Nat))).banned_addrs = [] := by
  refine ⟨rfl, rfl, rfl⟩

/-- C1, amended: for `ban(key, reason, requestedUntil)` with the existing
entry read as `{bannedUntil: 0, reason: Unknown}` when absent:
the update is rejected — the whole call leaving the state exactly unchanged —
when the existing reason is `ManuallyAdded` and the new one is not; it writes
the new entry if and only if it is not rejected and
`existing.bannedUntil < requestedUntil` or the existing reason is
`NodeMisbehaving` while the new one is not; in the remaining cases the call
leaves the table unchanged when the key was present, and when the key was
absent (possible only for `requestedUntil ≤ 0`) its only effect is the
neutral `{bannedUntil: 0, reason: Unknown}` entry inserted by the
`operator[]` lookup.  For a non-single subnet key the write-path statements
assume the ring-limit block is not reached (the source `assert`s those paths
are only taken for single addresses). -/
theorem C1_ban_precedence (N : NetModel Addr Subnet) (sub : Subnet)
    (reason : BanReason) (entry : CBanEntry) (s : BanState Addr Subnet) :
    (∀ a, N.isSingleAddr sub = some a →
      (((mapGetD a s.banned_addrs).banReason = .ManuallyAdded ∧
          reason ≠ .ManuallyAdded) →
        banWithEntry N sub reason entry s = (s, false)) ∧
      ((banWithEntry N sub reason entry s).2 = true ↔
        (¬((mapGetD a s.banned_addrs).banReason = .ManuallyAdded ∧
            reason ≠ .ManuallyAdded) ∧
          ((mapGetD a s.banned_addrs).nBanUntil < entry.nBanUntil ∨
            ((mapGetD a s.banned_addrs).banReason = .NodeMisbehaving ∧
              reason ≠ .NodeMisbehaving)))) ∧
      ((banWithEntry N sub reason entry s).2 = true →
        lookupKey a (banWithEntry N sub reason entry s).1.banned_addrs
          = some entry) ∧
      ((banWithEntry N sub reason entry s).2 = false →
        ((lookupKey a s.banned_addrs).isSome →
          banWithEntry N sub reason entry s = (s, false)) ∧
        (lookupKey a s.banned_addrs = none →
          banWithEntry N sub reason entry s =
            ({ s with banned_addrs := s.banned_addrs ++ [(a, CBanEntry.null)] },
              false) ∧
          entry.nBanUntil ≤ 0))) ∧
    (N.isSingleAddr sub = none →
      (((mapGetD sub s.banned_subnets).banReason = .ManuallyAdded ∧
          reason ≠ .ManuallyAdded) →
        banWithEntry N sub reason entry s = (s, false)) ∧
      ((s.misbehaving_capacity = 0 ∨
          (((mapGetD sub s.banned_subnets).nBanUntil = 0 →
              reason ≠ .NodeMisbehaving) ∧
            ((mapGetD sub s.banned_subnets).nBanUntil ≠ 0 →
              ¬((mapGetD sub s.banned_subnets).banReason = .NodeMisbehaving ∧
                reason ≠ .NodeMisbehaving)))) →
        ((banWithEntry N sub reason entry s).2 = true ↔
          (¬((mapGetD sub s.banned_subnets).banReason = .ManuallyAdded ∧
              reason ≠ .ManuallyAdded) ∧
            ((mapGetD sub s.banned_subnets).nBanUntil < entry.nBanUntil ∨
              ((mapGetD sub s.banned_subnets).banReason = .NodeMisbehaving ∧
                reason ≠ .NodeMisbehaving)))) ∧
        ((banWithEntry N sub reason entry s).2 = true →
          lookupKey sub (banWithEntry N sub reason entry s).1.banned_subnets
            = some entry)) ∧
      ((banWithEntry N sub reason entry s).2 = false →
        ((lookupKey sub s.banned_subnets).isSome →
          banWithEntry N sub reason entry s = (s, false)) ∧
        (lookupKey sub s.banned_subnets = none →
          banWithEntry N sub reason entry s =
            ({ s with banned_subnets := s.banned_subnets ++ [(sub, CBanEntry.null)] },
              false) ∧
          entry.nBanUntil ≤ 0))) := by
  constructor
  · intro a hs
    by_cases hrej : (mapGetD a s.banned_addrs).banReason = .ManuallyAdded ∧
        reason ≠ .ManuallyAdded
    · have heq := banWithEntry_single_reject N sub a reason entry s hs hrej
      refine ⟨fun _ => heq, ?_, ?_, ?_⟩
      · rw [heq]
        simp [hrej]
      · rw [heq]
        simp
      · intro _
        refine ⟨fun _ => heq, fun hnone => ?_⟩
        exfalso
        rw [mapGetD, hnone] at hrej
        simp [CBanEntry.null] at hrej
    · by_cases hcond : (mapGetD a s.banned_addrs).nBanUntil < entry.nBanUntil ∨
          ((mapGetD a s.banned_addrs).banReason = .NodeMisbehaving ∧
            reason ≠ .NodeMisbehaving)
      · have heq := banWithEntry_single_apply N sub a reason entry s hs hrej hcond
        refine ⟨fun h => absurd h hrej, ?_, ?_, ?_⟩
        · rw [heq]
          simp [hrej, hcond]
        · intro _
          rw [heq]
          exact lookupKey_setKey_self a entry _
        · intro hfalse
          rw [heq] at hfalse
          simp at hfalse
      · have heq := banWithEntry_single_noop N sub a reason entry s hs hrej hcond
        refine ⟨fun h => absurd h hrej, ?_, ?_, ?_⟩
        · rw [heq]
          simp only [Bool.false_eq_true, false_iff]
          intro hc
          exact hcond hc.2
        · intro habs
          rw [heq] at habs
          simp at habs
        · intro _
          constructor
          · intro hsome
            rw [heq, ensureKey_of_some hsome]
          · intro hnone
            have huntil : entry.nBanUntil ≤ 0 := by
              push_neg at hcond
              have h0 : (mapGetD a s.banned_addrs).nBanUntil = 0 := by
                rw [mapGetD, hnone]
                rfl
              have := hcond.1
              omega
            refine ⟨?_, huntil⟩
            rw [heq]
            unfold ensureKey
            rw [hnone]
  · intro hs
    by_cases hrej : (mapGetD sub s.banned_subnets).banReason = .ManuallyAdded ∧
        reason ≠ .ManuallyAdded
    · have heq := banWithEntry_subnet_reject N sub reason entry s hs hrej
      refine ⟨fun _ => heq, ?_, ?_⟩
      · intro _
        constructor
        · rw [heq]
          simp [hrej]
        · rw [heq]
          simp
      · intro _
        refine ⟨fun _ => heq, fun hnone => ?_⟩
        exfalso
        rw [mapGetD, hnone] at hrej
        simp [CBanEntry.null] at hrej
    · by_cases hcond : (mapGetD sub s.banned_subnets).nBanUntil < entry.nBanUntil ∨
          ((mapGetD sub s.banned_subnets).banReason = .NodeMisbehaving ∧
            reason ≠ .NodeMisbehaving)
      · have heq := banWithEntry_subnet_apply N sub reason entry s hs hrej hcond
        refine ⟨fun h => absurd h hrej, ?_, ?_⟩
        · intro _
          constructor
          · rw [heq]
            simp [hrej, hcond]
          · intro _
            rw [heq]
            exact lookupKey_setKey_self sub entry _
        · intro hfalse
          rw [heq] at hfalse
          simp at hfalse
      · have heq := banWithEntry_subnet_noop N sub reason entry s hs hrej hcond
        refine ⟨fun h => absurd h hrej, ?_, ?_⟩
        · intro _
          constructor
          · rw [heq]
            simp only [Bool.false_eq_true, false_iff]
            intro hc
            exact hcond hc.2
          · intro habs
            rw [heq] at habs
            simp at habs
        · intro _
          constructor
          · intro hsome
            rw [heq, ensureKey_of_some hsome]
          · intro hnone
            have huntil : entry.nBanUntil ≤ 0 := by
              push_neg at hcond
              have h0 : (mapGetD sub s.banned_subnets).nBanUntil = 0 := by
                rw [mapGetD, hnone]
                rfl
              have := hcond.1
              omega
            refine ⟨?_, huntil⟩
            rw [heq]
            unfold ensureKey
            rw [hnone]

/-- Witness for the amended C1: an automatic re-ban of a manually banned
address is rejected leaving the state unchanged, and a manual subnet ban on
an empty state writes its entry. -/
theorem C1_ban_precedence_witness :
    (banWithEntry NatNet (NatNet.ofAddr 0) .Unknown ⟨0, 200, .Unknown⟩
        (⟨[(0, ⟨0, 100, .ManuallyAdded⟩)], [], [], 0, false⟩ :
          BanState Nat (Sum Nat (Nat × Nat)))
      = (⟨[(0, ⟨0, 100, .ManuallyAdded⟩)], [], [], 0, false⟩, false)) ∧
    (lookupKey (Sum.inr (3, 4))
        (banWithEntry NatNet (Sum.inr (3, 4)) .ManuallyAdded ⟨0, 9, .ManuallyAdded⟩
          (emptyState : BanState Nat (Sum Nat (Nat × Nat)))).1.banned_subnets
      = some ⟨0, 9, .ManuallyAdded⟩) :=
  ⟨((C1_ban_precedence NatNet (NatNet.ofAddr 0) .Unknown ⟨0, 200, .Unknown⟩
      _).1 0 rfl).1 (by decide),
   (((C1_ban_precedence NatNet (Sum.inr (3, 4)) .ManuallyAdded ⟨0, 9, .ManuallyAdded⟩
      _).2 rfl).2.1 (by decide)).2 (by decide)⟩

end ClaimC1

section ClaimC7

variable {Addr Subnet : Type} [DecidableEq Addr] [DecidableEq Subnet]

/-- A subnet entry that is active at `now` and whose range contains `a`. -/
def subMatchActive (N : NetModel Addr Subnet) (now : Int) (a : Addr)
    (p : Subnet × CBanEntry) : Prop :=
  now < p.2.nBanUntil ∧ N.subnetMatch p.1 a = true

/-- Some matching active subnet entry has a reason other than
`NodeMisbehaving`. -/
def subOther (N : NetModel Addr Subnet) (now : Int) (a : Addr)
    (l : List (Subnet × CBanEntry)) : Prop :=
  ∃ p ∈ l, subMatchActive N now a p ∧ p.2.banReason ≠ .NodeMisbehaving

/-- Some matching active subnet entry exists. -/
def subAny (N : NetModel Addr Subnet) (now : Int) (a : Addr)
    (l : List (Subnet × CBanEntry)) : Prop :=
  ∃ p ∈ l, subMatchActive N now a p

theorem levelSubnets_spec (N : NetModel Addr Subnet) (now : Int) (a : Addr)
    (l : List (Subnet × CBanEntry)) :
    (subOther N now a l → ∀ lvl, levelSubnets N now a l lvl = 2) ∧
    (¬subOther N now a l → subAny N now a l →
      ∀ lvl, levelSubnets N now a l lvl = 1) ∧
    (¬subOther N now a l → ¬subAny N now a l →
      ∀ lvl, levelSubnets N now a l lvl = lvl) := by
  induction l with
  | nil =>
    refine ⟨?_, ?_, ?_⟩
    · intro h
      simp [subOther] at h
    · intro _ h
      simp [subAny] at h
    · intro _ _ lvl
      rfl
  | cons p rest ih =>
    by_cases hm : now < p.2.nBanUntil ∧ N.subnetMatch p.1 a = true
    · by_cases hr : p.2.banReason ≠ .NodeMisbehaving
      · refine ⟨?_, ?_, ?_⟩
        · intro _ lvl
          simp [levelSubnets, hm, hr]
        · intro hno _
          exact absurd ⟨p, by simp, hm, hr⟩ hno
        · intro hno _
          exact absurd ⟨p, by simp, hm, hr⟩ (fun h => hno h)
      · have hrest : ∀ lvl, levelSubnets N now a (p :: rest) lvl
            = levelSubnets N now a rest 1 := by
          intro lvl
          simp [levelSubnets, hm, hr]
        have hOtherIff : subOther N now a (p :: rest) ↔ subOther N now a rest := by
          constructor
          · rintro ⟨q, hq, hqm, hqr⟩
            rcases List.mem_cons.mp hq with hq | hq
            · subst hq
              exact absurd hqr hr
            · exact ⟨q, hq, hqm, hqr⟩
          · rintro ⟨q, hq, hqm, hqr⟩
            exact ⟨q, by simp [hq], hqm, hqr⟩
        refine ⟨?_, ?_, ?_⟩
        · intro ho lvl
          rw [hrest]
          exact ih.1 (hOtherIff.mp ho) 1
        · intro hno _ lvl
          rw [hrest]
          have hnoRest : ¬subOther N now a rest := fun h => hno (hOtherIff.mpr h)
          by_cases ha : subAny N now a rest
          · exact ih.2.1 hnoRest ha 1
          · exact ih.2.2 hnoRest ha 1
        · intro _ hnoany
          exact absurd ⟨p, by simp, hm⟩ hnoany
    · have hrest : ∀ lvl, levelSubnets N now a (p :: rest) lvl
          = levelSubnets N now a rest lvl := by
        intro lvl
        simp [levelSubnets, hm]
      have hOtherIff : subOther N now a (p :: rest) ↔ subOther N now a rest := by
        constructor
        · rintro ⟨q, hq, hqm, hqr⟩
          rcases List.mem_cons.mp hq with hq | hq
          · subst hq
            exact absurd hqm hm
          · exact ⟨q, hq, hqm, hqr⟩
        · rintro ⟨q, hq, hqm, hqr⟩
          exact ⟨q, by simp [hq], hqm, hqr⟩
      have hAnyIff : subAny N now a (p :: rest) ↔ subAny N now a rest := by
        constructor
        · rintro ⟨q, hq, hqm⟩
          rcases List.mem_cons.mp hq with hq | hq
          · subst hq
            exact absurd hqm hm
          · exact ⟨q, hq, hqm⟩
        · rintro ⟨q, hq, hqm⟩
          exact ⟨q, by simp [hq], hqm⟩
      refine ⟨?_, ?_, ?_⟩
      · intro ho lvl
        rw [hrest]
        exact ih.1 (hOtherIff.mp ho) lvl
      · intro hno ha lvl
        rw [hrest]
        exact ih.2.1 (fun h => hno (hOtherIff.mpr h)) (hAnyIff.mp ha) lvl
      · intro hno ha lvl
        rw [hrest]
        exact ih.2.2 (fun h => hno (hOtherIff.mpr h)) (fun h => ha (hAnyIff.mpr h)) lvl

/-- Some matching active entry (exact or subnet) has a reason other than
`NodeMisbehaving`. -/
def anyMatchOther (N : NetModel Addr Subnet) (now : Int) (a : Addr)
    (s : BanState Addr Subnet) : Prop :=
  (∃ e, lookupKey a s.banned_addrs = some e ∧ now < e.nBanUntil ∧
    e.banReason ≠ .NodeMisbehaving) ∨
  subOther N now a s.banned_subnets

/-- Some matching active entry (exact or subnet) exists. -/
def anyMatchActive (N : NetModel Addr Subnet) (now : Int) (a : Addr)
    (s : BanState Addr Subnet) : Prop :=
  (∃ e, lookupKey a s.banned_addrs = some e ∧ now < e.nBanUntil) ∨
  subAny N now a s.banned_subnets

/-- C7: `IsBannedLevel` is the maximum severity over all matches: it returns
2 exactly when some matching active entry (exact or any containing subnet)
has a reason other than `NodeMisbehaving`; 1 exactly when a matching active
entry exists and all matching active entries are `NodeMisbehaving`; 0 exactly
when no matching active entry exists. -/
theorem C7_isBannedLevel_max (N : NetModel Addr Subnet) (now : Int) (a : Addr)
    (s : BanState Addr Subnet) :
    (isBannedLevel N now a s = 2 ↔ anyMatchOther N now a s) ∧
    (isBannedLevel N now a s = 1 ↔
      anyMatchActive N now a s ∧ ¬anyMatchOther N now a s) ∧
    (isBannedLevel N now a s = 0 ↔ ¬anyMatchActive N now a s) := by
  have hls := levelSubnets_spec N now a s.banned_subnets
  cases hl : lookupKey a s.banned_addrs with
  | none =>
    have hlvl : isBannedLevel N now a s
        = levelSubnets N now a s.banned_subnets 0 := by
      simp [isBannedLevel, hl]
    have hO : anyMatchOther N now a s ↔ subOther N now a s.banned_subnets := by
      simp [anyMatchOther, hl]
    have hA : anyMatchActive N now a s ↔ subAny N now a s.banned_subnets := by
      simp [anyMatchActive, hl]
    rw [hlvl, hO, hA]
    by_cases ho : subOther N now a s.banned_subnets
    · rw [hls.1 ho 0]
      have ha : subAny N now a s.banned_subnets := by
        obtain ⟨q, hq, hqm, _⟩ := ho
        exact ⟨q, hq, hqm⟩
      simp [ho, ha]
    · by_cases ha : subAny N now a s.banned_subnets
      · rw [hls.2.1 ho ha 0]
        simp [ho, ha]
      · rw [hls.2.2 ho ha 0]
        simp [ho, ha]
  | some e =>
    have hO : anyMatchOther N now a s ↔
        ((now < e.nBanUntil ∧ e.banReason ≠ .NodeMisbehaving) ∨
          subOther N now a s.banned_subnets) := by
      simp [anyMatchOther, hl]
    have hA : anyMatchActive N now a s ↔
        (now < e.nBanUntil ∨ subAny N now a s.banned_subnets) := by
      simp [anyMatchActive, hl]
    rw [hO, hA]
    by_cases hact : now < e.nBanUntil
    · by_cases her : e.banReason ≠ .NodeMisbehaving
      · have hlvl : isBannedLevel N now a s = 2 := by
          simp [isBannedLevel, hl, hact, her]
        rw [hlvl]
        simp [hact, her]
      · have hlvl : isBannedLevel N now a s
            = levelSubnets N now a s.banned_subnets 1 := by
          simp [isBannedLevel, hl, hact, her]
        rw [hlvl]
        by_cases ho : subOther N now a s.banned_subnets
        · rw [hls.1 ho 1]
          simp [hact, her, ho]
        · have h1 : levelSubnets N now a s.banned_subnets 1 = 1 := by
            by_cases ha : subAny N now a s.banned_subnets
            · exact hls.2.1 ho ha 1
            · exact hls.2.2 ho ha 1
          rw [h1]
          simp [hact, her, ho]
    · have hlvl : isBannedLevel N now a s
          = levelSubnets N now a s.banned_subnets 0 := by
        simp [isBannedLevel, hl, hact]
      rw [hlvl]
      by_cases ho : subOther N now a s.banned_subnets
      · rw [hls.1 ho 0]
        have ha : subAny N now a s.banned_subnets := by
          obtain ⟨q, hq, hqm, _⟩ := ho
          exact ⟨q, hq, hqm⟩
        simp [hact, ho, ha]
      · by_cases ha : subAny N now a s.banned_subnets
        · rw [hls.2.1 ho ha 0]
          simp [hact, ho, ha]
        · rw [hls.2.2 ho ha 0]
          simp [hact, ho, ha]

end ClaimC7

section RingInvariant

variable {Addr Subnet : Type} [DecidableEq Addr] [DecidableEq Subnet]

/-- The address has a live entry in the exact-address map with reason
`NodeMisbehaving` (and a positive expiry, which every applied entry that was
pushed onto the ring has). -/
def entryLiveMis (addrs : List (Addr × CBanEntry)) (a : Addr) : Bool :=
  match lookupKey a addrs with
  | some e => decide (e.banReason = .NodeMisbehaving) && decide (0 < e.nBanUntil)
  | none => false

/-- The claimed ring invariant: every ring member is backed by a live
misbehaving exact-address entry, the ring has no duplicates, and its size is
bounded by the capacity. -/
def RingInv (s : BanState Addr Subnet) : Prop :=
  (∀ a ∈ s.misbehaving_addrs, entryLiveMis s.banned_addrs a = true) ∧
  s.misbehaving_addrs.Nodup ∧
  s.misbehaving_addrs.length ≤ s.misbehaving_capacity

instance (s : BanState Addr Subnet) : Decidable (RingInv s) :=
  inferInstanceAs (Decidable
    ((∀ a ∈ s.misbehaving_addrs, entryLiveMis s.banned_addrs a = true) ∧
      s.misbehaving_addrs.Nodup ∧
      s.misbehaving_addrs.length ≤ s.misbehaving_capacity))

theorem entryLiveMis_ensureKey {l : List (Addr × CBanEntry)} {b : Addr} (k : Addr)
    (h : entryLiveMis l b = true) : entryLiveMis (ensureKey k l) b = true := by
  unfold entryLiveMis at h ⊢
  cases hl : lookupKey b l with
  | none => rw [hl] at h; simp at h
  | some e =>
    rw [hl] at h
    rw [lookupKey_ensureKey_of_some hl]
    exact h

theorem entryLiveMis_setKey_ne {l : List (Addr × CBanEntry)} {b k : Addr}
    (hne : b ≠ k) (v : CBanEntry) (h : entryLiveMis l b = true) :
    entryLiveMis (setKey k v l) b = true := by
  unfold entryLiveMis at h ⊢
  rw [lookupKey_setKey_ne hne]
  exact h

theorem entryLiveMis_eraseKey_ne {l : List (Addr × CBanEntry)} {b k : Addr}
    (hne : b ≠ k) (h : entryLiveMis l b = true) :
    entryLiveMis (eraseKey k l) b = true := by
  unfold entryLiveMis at h ⊢
  rw [lookupKey_eraseKey_ne hne]
  exact h

theorem entryLiveMis_setKey_self {k : Addr} {e : CBanEntry}
    (hmis : e.banReason = .NodeMisbehaving) (hpos : 0 < e.nBanUntil)
    (l : List (Addr × CBanEntry)) : entryLiveMis (setKey k e l) k = true := by
  unfold entryLiveMis
  rw [lookupKey_setKey_self]
  simp [hmis, hpos]

theorem banApply_inv (a : Addr) (ban_reason : BanReason) (oldE entry : CBanEntry)
    (s0 : BanState Addr Subnet)
    (hreason : entry.banReason = ban_reason)
    (hmem : ∀ b ∈ s0.misbehaving_addrs, entryLiveMis s0.banned_addrs b = true)
    (hnd : s0.misbehaving_addrs.Nodup)
    (hlen : s0.misbehaving_addrs.length ≤ s0.misbehaving_capacity)
    (hlook : lookupKey a s0.banned_addrs = some oldE)
    (hcond : oldE.nBanUntil < entry.nBanUntil ∨
      (oldE.banReason = .NodeMisbehaving ∧ ban_reason ≠ .NodeMisbehaving)) :
    RingInv { banRingUpdate a ban_reason oldE s0 with
      banned_addrs := setKey a entry (banRingUpdate a ban_reason oldE s0).banned_addrs,
      is_dirty := true } := by
  have hFa : a ∈ s0.misbehaving_addrs →
      oldE.banReason = .NodeMisbehaving ∧ 0 < oldE.nBanUntil := by
    intro hm
    have := hmem a hm
    unfold entryLiveMis at this
    rw [hlook] at this
    simp at this
    exact this
  by_cases hc : s0.misbehaving_capacity ≠ 0
  · by_cases h0 : oldE.nBanUntil ≠ 0
    · by_cases hupg : oldE.banReason = .NodeMisbehaving ∧ ban_reason ≠ .NodeMisbehaving
      · -- reason upgrade of a prior ban: drop from the ring
        have hring : banRingUpdate a ban_reason oldE s0
            = { s0 with misbehaving_addrs := s0.misbehaving_addrs.erase a } := by
          simp only [banRingUpdate, if_pos hc, if_pos h0, if_pos hupg]
        rw [hring]
        refine ⟨?_, hnd.erase a, ?_⟩
        · intro b hb
          have hbne : b ≠ a := (hnd.mem_erase_iff.mp hb).1
          have hbmem : b ∈ s0.misbehaving_addrs := (hnd.mem_erase_iff.mp hb).2
          exact entryLiveMis_setKey_ne hbne entry (hmem b hbmem)
        · calc (s0.misbehaving_addrs.erase a).length
              ≤ s0.misbehaving_addrs.length := (List.erase_sublist a _).length_le
            _ ≤ s0.misbehaving_capacity := hlen
      · -- refreshing a prior ban with no upgrade: ring untouched
        have hring : banRingUpdate a ban_reason oldE s0 = s0 := by
          simp only [banRingUpdate, if_pos hc, if_pos h0, if_neg hupg]
        rw [hring]
        refine ⟨?_, hnd, hlen⟩
        intro b hb
        by_cases hba : b = a
        · subst hba
          have hfa := hFa hb
          have hmis : ban_reason = .NodeMisbehaving := by
            by_contra hcontra
            exact hupg ⟨hfa.1, hcontra⟩
          have hlt : oldE.nBanUntil < entry.nBanUntil := by
            rcases hcond with h | h
            · exact h
            · exact absurd h hupg
          exact entryLiveMis_setKey_self (hreason.trans hmis)
            (lt_trans hfa.2 hlt) _
        · exact entryLiveMis_setKey_ne hba entry (hmem b hb)
    · -- brand-new entry (old expiry 0)
      push_neg at h0
      have hA : a ∉ s0.misbehaving_addrs := by
        intro hm
        have := (hFa hm).2
        omega
      by_cases hmis : ban_reason = .NodeMisbehaving
      · have hposE : 0 < entry.nBanUntil := by
          rcases hcond with h | h
          · omega
          · exact absurd h.2 (fun hn => hn hmis)
        by_cases hfull : s0.misbehaving_addrs.length = s0.misbehaving_capacity
        · cases hringL : s0.misbehaving_addrs with
          | nil =>
            exfalso
            rw [hringL] at hfull
            simp at hfull
            exact hc hfull.symm
          | cons f rest =>
            have hring : banRingUpdate a ban_reason oldE s0
                = { s0 with
                    banned_addrs := eraseKey f s0.banned_addrs,
                    misbehaving_addrs := rest ++ [a] } := by
              simp only [banRingUpdate, if_pos hc, h0, ne_eq,
                not_true_eq_false, if_false, if_pos hmis, if_pos hfull, hringL]
              rw [if_pos (hringL ▸ hfull)]
            rw [hring]
            have hfrest : f ∉ rest := by
              rw [hringL] at hnd
              exact (List.nodup_cons.mp hnd).1
            have hndrest : rest.Nodup := by
              rw [hringL] at hnd
              exact (List.nodup_cons.mp hnd).2
            have harest : a ∉ rest := by
              intro hm
              exact hA (hringL ▸ List.mem_cons_of_mem f hm)
            refine ⟨?_, nodup_append_singleton hndrest harest, ?_⟩
            · intro b hb
              rcases List.mem_append.mp hb with hb | hb
              · have hbf : b ≠ f := fun hbf => hfrest (hbf ▸ hb)
                have hba : b ≠ a := fun hba => harest (hba ▸ hb)
                have hbmem : b ∈ s0.misbehaving_addrs :=
                  hringL ▸ List.mem_cons_of_mem f hb
                exact entryLiveMis_setKey_ne hba entry
                  (entryLiveMis_eraseKey_ne hbf (hmem b hbmem))
              · have hba : b = a := by simpa using hb
                subst hba
                exact entryLiveMis_setKey_self (hreason.trans hmis) hposE _
            · have : (rest ++ [a]).length = s0.misbehaving_addrs.length := by
                rw [hringL]
                simp
              rw [this]
              exact hlen
        · have hring : banRingUpdate a ban_reason oldE s0
              = { s0 with misbehaving_addrs := s0.misbehaving_addrs ++ [a] } := by
            simp only [banRingUpdate, if_pos hc, h0, ne_eq,
              not_true_eq_false, if_false, if_pos hmis, if_neg hfull]
          rw [hring]
          refine ⟨?_, nodup_append_singleton hnd hA, ?_⟩
          · intro b hb
            rcases List.mem_append.mp hb with hb | hb
            · have hba : b ≠ a := fun hba => hA (hba ▸ hb)
              exact entryLiveMis_setKey_ne hba entry (hmem b hb)
            · have hba : b = a := by simpa using hb
              subst hba
              exact entryLiveMis_setKey_self (hreason.trans hmis) hposE _
          · have hlt : s0.misbehaving_addrs.length < s0.misbehaving_capacity :=
              lt_of_le_of_ne hlen hfull
            simp only [List.length_append, List.length_singleton]
            omega
      · have hring : banRingUpdate a ban_reason oldE s0 = s0 := by
          simp only [banRingUpdate, if_pos hc, h0, ne_eq,
            not_true_eq_false, if_false, if_neg hmis]
        rw [hring]
        refine ⟨?_, hnd, hlen⟩
        intro b hb
        have hba : b ≠ a := fun hba => hA (hba ▸ hb)
        exact entryLiveMis_setKey_ne hba entry (hmem b hb)
  · -- no capacity limit: the ring block is skipped, and the ring is empty
    push_neg at hc
    have hring : banRingUpdate a ban_reason oldE s0 = s0 := by
      simp only [banRingUpdate, hc, ne_eq, not_true_eq_false, if_false]
    rw [hring]
    have hempty : s0.misbehaving_addrs = [] := by
      have : s0.misbehaving_addrs.length = 0 := by omega
      exact List.eq_nil_of_length_eq_zero this
    refine ⟨?_, hnd, hlen⟩
    intro b hb
    have hb' : b ∈ s0.misbehaving_addrs := hb
    rw [hempty] at hb'
    simp at hb'

theorem banWithEntry_preserves_inv (N : NetModel Addr Subnet) (sub : Subnet)
    (reason : BanReason) (entry : CBanEntry) (s : BanState Addr Subnet)
    (hreason : entry.banReason = reason) (hinv : RingInv s) :
    RingInv (banWithEntry N sub reason entry s).1 := by
  obtain ⟨hmem, hnd, hlen⟩ := hinv
  cases hs : N.isSingleAddr sub with
  | none =>
    simp only [banWithEntry, hs]
    split_ifs <;> exact ⟨hmem, hnd, hlen⟩
  | some a =>
    by_cases hrej : (mapGetD a s.banned_addrs).banReason = .ManuallyAdded ∧
        reason ≠ .ManuallyAdded
    · rw [banWithEntry_single_reject N sub a reason entry s hs hrej]
      exact ⟨hmem, hnd, hlen⟩
    · by_cases hcond : (mapGetD a s.banned_addrs).nBanUntil < entry.nBanUntil ∨
          ((mapGetD a s.banned_addrs).banReason = .NodeMisbehaving ∧
            reason ≠ .NodeMisbehaving)
      · rw [banWithEntry_single_apply N sub a reason entry s hs hrej hcond]
        exact banApply_inv a reason (mapGetD a s.banned_addrs) entry
          { s with banned_addrs := ensureKey a s.banned_addrs } hreason
          (fun b hb => entryLiveMis_ensureKey a (hmem b hb)) hnd hlen
          (lookupKey_ensureKey_self a s.banned_addrs) hcond
      · rw [banWithEntry_single_noop N sub a reason entry s hs hrej hcond]
        exact ⟨fun b hb => entryLiveMis_ensureKey a (hmem b hb), hnd, hlen⟩

theorem unbanCore_preserves_inv (N : NetModel Addr Subnet) (sub : Subnet)
    (s : BanState Addr Subnet) (hinv : RingInv s) :
    RingInv (unbanCore N sub s).1 := by
  obtain ⟨hmem, hnd, hlen⟩ := hinv
  cases hs : N.isSingleAddr sub with
  | none =>
    simp only [unbanCore, hs]
    cases hl : lookupKey sub s.banned_subnets <;> exact ⟨hmem, hnd, hlen⟩
  | some a =>
    simp only [unbanCore, hs]
    cases hl : lookupKey a s.banned_addrs with
    | none => exact ⟨hmem, hnd, hlen⟩
    | some e =>
      dsimp only
      by_cases hm : e.banReason = .NodeMisbehaving
      · rw [if_pos hm]
        refine ⟨?_, hnd.erase a, ?_⟩
        · intro b hb
          have hbne := (hnd.mem_erase_iff.mp hb).1
          have hbmem := (hnd.mem_erase_iff.mp hb).2
          exact entryLiveMis_eraseKey_ne hbne (hmem b hbmem)
        · exact le_trans (List.erase_sublist a _).length_le hlen
      · rw [if_neg hm]
        have hA : a ∉ s.misbehaving_addrs := by
          intro hmm
          have := hmem a hmm
          unfold entryLiveMis at this
          rw [hl] at this
          simp at this
          exact hm this.1
        refine ⟨?_, hnd, hlen⟩
        intro b hb
        have hbne : b ≠ a := fun hba => hA (hba ▸ hb)
        exact entryLiveMis_eraseKey_ne hbne (hmem b hb)

theorem clearBannedCore_inv (s : BanState Addr Subnet) :
    RingInv (clearBannedCore s) := by
  refine ⟨?_, ?_, ?_⟩ <;> simp [clearBannedCore]

theorem setBanned_foldl_ring (N : NetModel Addr Subnet)
    (bm : List (Subnet × CBanEntry)) :
    ∀ st : BanState Addr Subnet,
      ((bm.foldl (fun st p =>
        match N.isSingleAddr p.1 with
        | some a => { st with banned_addrs := setKey a p.2 st.banned_addrs }
        | none => { st with banned_subnets := setKey p.1 p.2 st.banned_subnets })
          st).misbehaving_addrs = st.misbehaving_addrs ∧
      (bm.foldl (fun st p =>
        match N.isSingleAddr p.1 with
        | some a => { st with banned_addrs := setKey a p.2 st.banned_addrs }
        | none => { st with banned_subnets := setKey p.1 p.2 st.banned_subnets })
          st).misbehaving_capacity = st.misbehaving_capacity) := by
  induction bm with
  | nil => intro st; exact ⟨rfl, rfl⟩
  | cons p rest ih =>
    intro st
    rw [List.foldl_cons]
    refine ⟨?_, ?_⟩
    · rw [(ih _).1]
      cases hsp : N.isSingleAddr p.1 <;> simp [hsp]
    · rw [(ih _).2]
      cases hsp : N.isSingleAddr p.1 <;> simp [hsp]

theorem setBanned_ring (N : NetModel Addr Subnet) (bm : List (Subnet × CBanEntry))
    (s : BanState Addr Subnet) :
    (setBanned N bm s).misbehaving_addrs = s.misbehaving_addrs ∧
    (setBanned N bm s).misbehaving_capacity = s.misbehaving_capacity := by
  unfold setBanned
  have h := setBanned_foldl_ring N bm
    { s with
      banned_addrs := ([] : List (Addr × CBanEntry)),
      banned_subnets := ([] : List (Subnet × CBanEntry)) }
  exact ⟨h.1, h.2⟩

end RingInvariant

section ClaimC2

variable {Addr Subnet : Type} [DecidableEq Addr] [DecidableEq Subnet]

/-- C2, counterexample: the claim says the ring/table correspondence holds
after every operation — in particular that a sweep removing an expired
exact-address entry also removes the ring membership.  But `SweepBanned`
never touches `m_misbehaving_addrs`: with capacity 1, after banning address 3
for misbehavior until time 10 and sweeping at time 20, the table entry is
gone while the ring still holds 3, so the claimed invariant fails. -/
theorem C2_counterexample :
    (sweepCore 20 (banFull NatNet 0 100 (NatNet.ofAddr 3) .NodeMisbehaving 10
        false (fun _ => true) (setMisbehavingLimit 1
          (emptyState : BanState Nat (Sum Nat (Nat × Nat))))).1).1.misbehaving_addrs
      = [3] ∧
    lookupKey 3 (sweepCore 20 (banFull NatNet 0 100 (NatNet.ofAddr 3) .NodeMisbehaving
        10 false (fun _ => true) (setMisbehavingLimit 1
          (emptyState : BanState Nat (Sum Nat (Nat × Nat))))).1).1.banned_addrs
      = none ∧
    ¬ RingInv (sweepCore 20 (banFull NatNet 0 100 (NatNet.ofAddr 3) .NodeMisbehaving
        10 false (fun _ => true) (setMisbehavingLimit 1
          (emptyState : BanState Nat (Sum Nat (Nat × Nat))))).1).1 := by
  exact ⟨rfl, rfl, by decide⟩

/-- C2, amended: the invariant — every ring address has a live exact-address
entry with reason `NodeMisbehaving` (and positive expiry), the ring has no
duplicates, and its size never exceeds the capacity — is preserved by the
locked mutation sections of `Ban` and `Unban` and holds after `ClearBanned`;
`SweepBanned`, `SetBanned` and `DumpBanlist` leave the ring and its capacity
entirely untouched (so the size bound survives every operation), which is
precisely why a sweep that removes an expired misbehaving entry leaves a
stale ring member behind instead of cleaning it. -/
theorem C2_ring_invariant_ops (N : NetModel Addr Subnet) :
    (∀ (sub : Subnet) (reason : BanReason) (entry : CBanEntry)
        (s : BanState Addr Subnet),
      entry.banReason = reason → RingInv s →
      RingInv (banWithEntry N sub reason entry s).1) ∧
    (∀ (sub : Subnet) (s : BanState Addr Subnet), RingInv s →
      RingInv (unbanCore N sub s).1) ∧
    (∀ s : BanState Addr Subnet, RingInv (clearBannedCore s)) ∧
    (∀ (now : Int) (s : BanState Addr Subnet),
      (sweepCore now s).1.misbehaving_addrs = s.misbehaving_addrs ∧
      (sweepCore now s).1.misbehaving_capacity = s.misbehaving_capacity) ∧
    (∀ (bm : List (Subnet × CBanEntry)) (s : BanState Addr Subnet),
      (setBanned N bm s).misbehaving_addrs = s.misbehaving_addrs ∧
      (setBanned N bm s).misbehaving_capacity = s.misbehaving_capacity) ∧
    (∀ (now : Int) (writer : List (Subnet × CBanEntry) → Bool)
        (s : BanState Addr Subnet),
      (dumpBanlist N now writer s).1.misbehaving_addrs = s.misbehaving_addrs ∧
      (dumpBanlist N now writer s).1.misbehaving_capacity
        = s.misbehaving_capacity) :=
  ⟨fun sub reason entry s hr hi => banWithEntry_preserves_inv N sub reason entry s hr hi,
   fun sub s hi => unbanCore_preserves_inv N sub s hi,
   fun s => clearBannedCore_inv s,
   fun now s => sweepCore_ring now s,
   fun bm s => setBanned_ring N bm s,
   fun now writer s => dumpBanlist_ring N now writer s⟩

/-- Witness for the amended C2 at concrete inputs: a misbehaving ban, an
unban and a clear each preserve the invariant on a concrete state. -/
theorem C2_ring_invariant_ops_witness :
    RingInv (banWithEntry NatNet (NatNet.ofAddr 5) .NodeMisbehaving
      ⟨0, 10, .NodeMisbehaving⟩
      (setMisbehavingLimit 2 (emptyState : BanState Nat (Sum Nat (Nat × Nat))))).1 ∧
    RingInv (unbanCore NatNet (NatNet.ofAddr 5)
      (⟨[(5, ⟨0, 10, .NodeMisbehaving⟩)], [], [5], 2, true⟩ :
        BanState Nat (Sum Nat (Nat × Nat)))).1 ∧
    RingInv (clearBannedCore
      (⟨[(5, ⟨0, 10, .NodeMisbehaving⟩)], [], [5], 2, true⟩ :
        BanState Nat (Sum Nat (Nat × Nat)))) :=
  ⟨(C2_ring_invariant_ops NatNet).1 (NatNet.ofAddr 5) .NodeMisbehaving
      ⟨0, 10, .NodeMisbehaving⟩ _ rfl (by decide),
   (C2_ring_invariant_ops NatNet).2.1 (NatNet.ofAddr 5) _ (by decide),
   (C2_ring_invariant_ops NatNet).2.2.1 _⟩

end ClaimC2

section ClaimC4

variable {Addr Subnet : Type} [DecidableEq Addr] [DecidableEq Subnet]

theorem setKey_append_self {K V : Type} [DecidableEq K] {k : K} {l : List (K × V)}
    (h : lookupKey k l = none) (v w : V) :
    setKey k v (l ++ [(k, w)]) = l ++ [(k, v)] := by
  induction l with
  | nil => simp [setKey]
  | cons p rest ih =>
    by_cases hp : p.1 = k
    · simp [lookupKey, hp] at h
    · simp only [lookupKey, if_neg hp] at h
      simp [setKey, hp, ih h]

theorem lookupKey_eraseKey_none {K V : Type} [DecidableEq K] {k j : K}
    {l : List (K × V)} (h : lookupKey k l = none) :
    lookupKey k (eraseKey j l) = none := by
  induction l with
  | nil => rfl
  | cons p rest ih =>
    by_cases hp : p.1 = k
    · simp [lookupKey, hp] at h
    · simp only [lookupKey, if_neg hp] at h
      by_cases hj : p.1 = j
      · simp [eraseKey, hj, h]
      · simp [eraseKey, hj, lookupKey, hp, ih h]

theorem lookupKey_map_const_mem {K V : Type} [DecidableEq K] {b : K} {l : List K}
    (h : b ∈ l) (v : V) :
    lookupKey b (l.map (fun x => (x, v))) = some v := by
  induction l with
  | nil => simp at h
  | cons x rest ih =>
    by_cases hx : x = b
    · simp [lookupKey, hx]
    · rcases List.mem_cons.mp h with h | h
      · exact absurd h.symm hx
      · simp [lookupKey, hx, ih h]

theorem lookupKey_map_const_not_mem {K V : Type} [DecidableEq K] {b : K} {l : List K}
    (h : b ∉ l) (v : V) :
    lookupKey b (l.map (fun x => (x, v))) = none := by
  induction l with
  | nil => rfl
  | cons x rest ih =>
    have hx : x ≠ b := fun hh => h (by simp [hh])
    have hrest : b ∉ rest := fun hh => h (by simp [hh])
    simp [lookupKey, hx, ih hrest]

/-- Banning a list of addresses for misbehavior in order via `BanMan::Ban`. -/
def banMisbehavingSeq (N : NetModel Addr Subnet) (now dflt offset : Int)
    (epoch : Bool) (writer : List (Subnet × CBanEntry) → Bool) (addrs : List Addr)
    (s : BanState Addr Subnet) : BanState Addr Subnet :=
  addrs.foldl (fun st b =>
    (banFull N now dflt (N.ofAddr b) .NodeMisbehaving offset epoch writer st).1) s

theorem banFull_mis_fresh (N : NetModel Addr Subnet) (now dflt offset : Int)
    (epoch : Bool) (writer : List (Subnet × CBanEntry) → Bool) (a : Addr)
    (s : BanState Addr Subnet)
    (hfresh : lookupKey a s.banned_addrs = none)
    (hU : 0 < banUntil now dflt offset epoch)
    (hcap : s.misbehaving_addrs.length < s.misbehaving_capacity) :
    (banFull N now dflt (N.ofAddr a) .NodeMisbehaving offset epoch writer s).1 =
      { s with
        banned_addrs := s.banned_addrs
          ++ [(a, ⟨now, banUntil now dflt offset epoch, .NodeMisbehaving⟩)],
        misbehaving_addrs := s.misbehaving_addrs ++ [a],
        is_dirty := true } := by
  have hs := N.ofAddr_single a
  have hold : mapGetD a s.banned_addrs = CBanEntry.null := by
    rw [mapGetD, hfresh]
    rfl
  have hrej : ¬((mapGetD a s.banned_addrs).banReason = .ManuallyAdded ∧
      (.NodeMisbehaving : BanReason) ≠ .ManuallyAdded) := by
    rw [hold]
    simp [CBanEntry.null]
  have hcond : (mapGetD a s.banned_addrs).nBanUntil
      < (⟨now, banUntil now dflt offset epoch,
          (.NodeMisbehaving : BanReason)⟩ : CBanEntry).nBanUntil ∨
      ((mapGetD a s.banned_addrs).banReason = .NodeMisbehaving ∧
        (.NodeMisbehaving : BanReason) ≠ .NodeMisbehaving) := by
    left
    rw [hold]
    exact hU
  have happ := banWithEntry_single_apply N (N.ofAddr a) a .NodeMisbehaving
    ⟨now, banUntil now dflt offset epoch, .NodeMisbehaving⟩ s hs hrej hcond
  rw [hold] at happ
  have hcap0 : s.misbehaving_capacity ≠ 0 := by omega
  have hnotfull : ¬(s.misbehaving_addrs.length = s.misbehaving_capacity) :=
    Nat.ne_of_lt hcap
  have hring : banRingUpdate a .NodeMisbehaving CBanEntry.null
      { s with banned_addrs := ensureKey a s.banned_addrs }
      = { s with
          banned_addrs := ensureKey a s.banned_addrs,
          misbehaving_addrs := s.misbehaving_addrs ++ [a] } := by
    simp [banRingUpdate, CBanEntry.null, hcap0, hnotfull]
  have haddrs : ensureKey a s.banned_addrs
      = s.banned_addrs ++ [(a, CBanEntry.null)] := by
    unfold ensureKey
    rw [hfresh]
  simp only [banFull, happ, if_true, hring]
  have hset : setKey a
      (⟨now, banUntil now dflt offset epoch, (.NodeMisbehaving : BanReason)⟩ :
        CBanEntry)
      (ensureKey a s.banned_addrs)
      = s.banned_addrs
        ++ [(a, ⟨now, banUntil now dflt offset epoch, .NodeMisbehaving⟩)] := by
    rw [haddrs]
    exact setKey_append_self hfresh _ _
  simp only [hset]
  rfl

theorem banFull_mis_fresh_full (N : NetModel Addr Subnet) (now dflt offset : Int)
    (epoch : Bool) (writer : List (Subnet × CBanEntry) → Bool) (a f : Addr)
    (rest : List Addr) (s : BanState Addr Subnet)
    (hfresh : lookupKey a s.banned_addrs = none)
    (hU : 0 < banUntil now dflt offset epoch)
    (hringL : s.misbehaving_addrs = f :: rest)
    (hfull : s.misbehaving_addrs.length = s.misbehaving_capacity)
    (hf : (lookupKey f s.banned_addrs).isSome) :
    (banFull N now dflt (N.ofAddr a) .NodeMisbehaving offset epoch writer s).1 =
      { s with
        banned_addrs := eraseKey f s.banned_addrs
          ++ [(a, ⟨now, banUntil now dflt offset epoch, .NodeMisbehaving⟩)],
        misbehaving_addrs := rest ++ [a],
        is_dirty := true } := by
  have hs := N.ofAddr_single a
  have hold : mapGetD a s.banned_addrs = CBanEntry.null := by
    rw [mapGetD, hfresh]
    rfl
  have hrej : ¬((mapGetD a s.banned_addrs).banReason = .ManuallyAdded ∧
      (.NodeMisbehaving : BanReason) ≠ .ManuallyAdded) := by
    rw [hold]
    simp [CBanEntry.null]
  have hcond : (mapGetD a s.banned_addrs).nBanUntil
      < (⟨now, banUntil now dflt offset epoch,
          (.NodeMisbehaving : BanReason)⟩ : CBanEntry).nBanUntil ∨
      ((mapGetD a s.banned_addrs).banReason = .NodeMisbehaving ∧
        (.NodeMisbehaving : BanReason) ≠ .NodeMisbehaving) := by
    left
    rw [hold]
    exact hU
  have happ := banWithEntry_single_apply N (N.ofAddr a) a .NodeMisbehaving
    ⟨now, banUntil now dflt offset epoch, .NodeMisbehaving⟩ s hs hrej hcond
  rw [hold] at happ
  have hcap0 : s.misbehaving_capacity ≠ 0 := by
    rw [hringL] at hfull
    simp at hfull
    omega
  have haddrs : ensureKey a s.banned_addrs
      = s.banned_addrs ++ [(a, CBanEntry.null)] := by
    unfold ensureKey
    rw [hfresh]
  have hring : banRingUpdate a .NodeMisbehaving CBanEntry.null
      { s with banned_addrs := ensureKey a s.banned_addrs }
      = { s with
          banned_addrs := eraseKey f (ensureKey a s.banned_addrs),
          misbehaving_addrs := rest ++ [a] } := by
    simp only [banRingUpdate, CBanEntry.null, hcap0, ne_eq, not_false_eq_true,
      if_true, not_true_eq_false, if_false, hringL]
    rw [if_pos (hringL ▸ hfull)]
  simp only [banFull, happ, if_true, hring]
  have herase : eraseKey f (ensureKey a s.banned_addrs)
      = eraseKey f s.banned_addrs ++ [(a, CBanEntry.null)] := by
    rw [haddrs]
    exact eraseKey_append_of_some hf _
  have hset : setKey a
      (⟨now, banUntil now dflt offset epoch, (.NodeMisbehaving : BanReason)⟩ :
        CBanEntry)
      (eraseKey f (ensureKey a s.banned_addrs))
      = eraseKey f s.banned_addrs
        ++ [(a, ⟨now, banUntil now dflt offset epoch, .NodeMisbehaving⟩)] := by
    rw [herase]
    exact setKey_append_self (lookupKey_eraseKey_none hfresh) _ _
  simp only [hset]
  rfl

theorem banSeq_fill (N : NetModel Addr Subnet) (now dflt offset : Int)
    (epoch : Bool) (writer : List (Subnet × CBanEntry) → Bool) (l : List Addr) :
    ∀ s : BanState Addr Subnet, l.Nodup →
      (∀ b ∈ l, lookupKey b s.banned_addrs = none) →
      0 < banUntil now dflt offset epoch →
      s.misbehaving_addrs.length + l.length ≤ s.misbehaving_capacity →
      banMisbehavingSeq N now dflt offset epoch writer l s =
        { s with
          banned_addrs := s.banned_addrs ++ l.map (fun b =>
            (b, (⟨now, banUntil now dflt offset epoch,
              .NodeMisbehaving⟩ : CBanEntry))),
          misbehaving_addrs := s.misbehaving_addrs ++ l,
          is_dirty := s.is_dirty || !l.isEmpty } := by
  induction l with
  | nil =>
    intro s _ _ _ _
    have h1 : banMisbehavingSeq N now dflt offset epoch writer [] s = s := rfl
    rw [h1]
    cases s
    simp
  | cons a rest ih =>
    intro s hnd hfresh hU hcap
    have hstep := banFull_mis_fresh N now dflt offset epoch writer a s
      (hfresh a (by simp)) hU (by simp at hcap; omega)
    have hseq : banMisbehavingSeq N now dflt offset epoch writer (a :: rest) s
        = banMisbehavingSeq N now dflt offset epoch writer rest
          ((banFull N now dflt (N.ofAddr a) .NodeMisbehaving offset epoch
            writer s).1) := rfl
    have hanotin : a ∉ rest := (List.nodup_cons.mp hnd).1
    have hndr : rest.Nodup := (List.nodup_cons.mp hnd).2
    rw [hseq, hstep]
    rw [ih _ hndr ?_ hU ?_]
    · cases s
      simp [List.append_assoc]
    · intro b hb
      have hbne : a ≠ b := fun hab => hanotin (hab ▸ hb)
      rw [lookupKey_append_none (hfresh b (by simp [hb]))]
      simp [lookupKey, hbne]
    · simp only [List.length_append, List.length_singleton]
      simp at hcap
      omega

/-- C4: with the misbehavior ring's capacity set to `C` before any bans,
banning `C+1` distinct addresses `a1, rest...` (each a brand-new entry) with
reason `NodeMisbehaving` in order leaves `a1` entirely absent from the
exact-address map and no longer banned, while every address of `rest` has its
entry present and is still banned. -/
theorem C4_capacity_eviction (N : NetModel Addr Subnet) (now dflt offset : Int)
    (epoch : Bool) (writer : List (Subnet × CBanEntry) → Bool) (C : Nat)
    (a1 : Addr) (rest : List Addr)
    (hC : 0 < C)
    (hnd : (a1 :: rest).Nodup)
    (hlen : rest.length = C)
    (hU : 0 < banUntil now dflt offset epoch)
    (hnowU : now < banUntil now dflt offset epoch) :
    lookupKey a1 (banMisbehavingSeq N now dflt offset epoch writer (a1 :: rest)
        (setMisbehavingLimit C (emptyState : BanState Addr Subnet))).banned_addrs
      = none ∧
    isBannedAddr N now a1 (banMisbehavingSeq N now dflt offset epoch writer
        (a1 :: rest) (setMisbehavingLimit C (emptyState : BanState Addr Subnet)))
      = false ∧
    (∀ b ∈ rest,
      lookupKey b (banMisbehavingSeq N now dflt offset epoch writer (a1 :: rest)
          (setMisbehavingLimit C (emptyState : BanState Addr Subnet))).banned_addrs
        = some ⟨now, banUntil now dflt offset epoch, .NodeMisbehaving⟩ ∧
      isBannedAddr N now b (banMisbehavingSeq N now dflt offset epoch writer
          (a1 :: rest) (setMisbehavingLimit C
            (emptyState : BanState Addr Subnet))) = true) := by
  have hrestne : rest ≠ [] := by
    intro h
    rw [h] at hlen
    simp at hlen
    omega
  obtain ⟨mid, alast, hrest⟩ := (List.eq_nil_or_concat rest).resolve_left hrestne
  rw [List.concat_eq_append] at hrest
  subst hrest
  have ha1 : a1 ∉ mid ++ [alast] := (List.nodup_cons.mp hnd).1
  have hndr : (mid ++ [alast]).Nodup := (List.nodup_cons.mp hnd).2
  have halastmid : alast ∉ mid := by
    intro hm
    have : ¬(mid ++ [alast]).Nodup := by
      intro hcontra
      have hdj := List.disjoint_of_nodup_append hcontra
      exact hdj hm (by simp)
    exact this hndr
  have hndmid : mid.Nodup := (List.nodup_append.mp hndr).1
  have hnd1 : (a1 :: mid).Nodup := by
    refine List.nodup_cons.mpr ⟨?_, hndmid⟩
    intro hm
    exact ha1 (List.mem_append.mpr (Or.inl hm))
  have hlenmid : mid.length + 1 = C := by
    simpa using hlen
  have hfill := banSeq_fill N now dflt offset epoch writer (a1 :: mid)
    (setMisbehavingLimit C (emptyState : BanState Addr Subnet)) hnd1
    (fun b _ => rfl) hU (by simp [setMisbehavingLimit, emptyState]; omega)
  have hfill' : banMisbehavingSeq N now dflt offset epoch writer (a1 :: mid)
      (setMisbehavingLimit C (emptyState : BanState Addr Subnet))
      = ⟨(a1 :: mid).map (fun b =>
          (b, (⟨now, banUntil now dflt offset epoch,
            .NodeMisbehaving⟩ : CBanEntry))), [], a1 :: mid, C, true⟩ := by
    rw [hfill]
    rfl
  have hsplit : banMisbehavingSeq N now dflt offset epoch writer
      (a1 :: (mid ++ [alast]))
      (setMisbehavingLimit C (emptyState : BanState Addr Subnet))
      = (banFull N now dflt (N.ofAddr alast) .NodeMisbehaving offset epoch writer
          (banMisbehavingSeq N now dflt offset epoch writer (a1 :: mid)
            (setMisbehavingLimit C (emptyState : BanState Addr Subnet)))).1 := by
    have hl : a1 :: (mid ++ [alast]) = (a1 :: mid) ++ [alast] := rfl
    rw [banMisbehavingSeq, hl, List.foldl_append]
    rfl
  have hfreshLast : lookupKey alast ((a1 :: mid).map (fun b =>
      (b, (⟨now, banUntil now dflt offset epoch,
        .NodeMisbehaving⟩ : CBanEntry)))) = none := by
    apply lookupKey_map_const_not_mem
    intro hm
    rcases List.mem_cons.mp hm with hm | hm
    · exact ha1 (hm ▸ List.mem_append.mpr (Or.inr (by simp)))
    · exact halastmid hm
  have hstep := banFull_mis_fresh_full N now dflt offset epoch writer alast a1 mid
    (⟨(a1 :: mid).map (fun b =>
        (b, (⟨now, banUntil now dflt offset epoch,
          .NodeMisbehaving⟩ : CBanEntry))), [], a1 :: mid, C, true⟩ :
      BanState Addr Subnet)
    hfreshLast hU rfl (by simp [hlenmid]) (by
      rw [lookupKey_map_const_mem (by simp) _]
      rfl)
  have hfin : banMisbehavingSeq N now dflt offset epoch writer
      (a1 :: (mid ++ [alast]))
      (setMisbehavingLimit C (emptyState : BanState Addr Subnet))
      = ⟨(mid ++ [alast]).map (fun b =>
          (b, (⟨now, banUntil now dflt offset epoch,
            .NodeMisbehaving⟩ : CBanEntry))), [], mid ++ [alast], C, true⟩ := by
    rw [hsplit, hfill', hstep]
    simp [eraseKey, lookupKey]
  rw [hfin]
  refine ⟨?_, ?_, ?_⟩
  · exact lookupKey_map_const_not_mem ha1 _
  · have hnone := lookupKey_map_const_not_mem ha1
      (⟨now, banUntil now dflt offset epoch,
        (.NodeMisbehaving : BanReason)⟩ : CBanEntry)
    simp only [List.map_append, List.map_cons, List.map_nil] at hnone
    simp [isBannedAddr, hnone]
  · intro b hb
    have hsome := lookupKey_map_const_mem hb
      (⟨now, banUntil now dflt offset epoch,
        (.NodeMisbehaving : BanReason)⟩ : CBanEntry)
    refine ⟨hsome, ?_⟩
    simp only [List.map_append, List.map_cons, List.map_nil] at hsome
    simp [isBannedAddr, hsome, hnowU]

/-- Witness for C4 at the spec's concrete scenario: capacity 2, three
distinct addresses banned for misbehavior; the first is evicted and unbanned,
the later two remain present and banned. -/
theorem C4_capacity_eviction_witness :
    lookupKey 10 (banMisbehavingSeq NatNet 0 86400 60 false (fun _ => true)
        [10, 11, 12] (setMisbehavingLimit 2
          (emptyState : BanState Nat (Sum Nat (Nat × Nat))))).banned_addrs
      = none ∧
    isBannedAddr NatNet 0 10 (banMisbehavingSeq NatNet 0 86400 60 false
        (fun _ => true) [10, 11, 12] (setMisbehavingLimit 2
          (emptyState : BanState Nat (Sum Nat (Nat × Nat))))) = false ∧
    (∀ b ∈ [11, 12],
      lookupKey b (banMisbehavingSeq NatNet 0 86400 60 false (fun _ => true)
          [10, 11, 12] (setMisbehavingLimit 2
            (emptyState : BanState Nat (Sum Nat (Nat × Nat))))).banned_addrs
        = some ⟨0, banUntil 0 86400 60 false, .NodeMisbehaving⟩ ∧
      isBannedAddr NatNet 0 b (banMisbehavingSeq NatNet 0 86400 60 false
          (fun _ => true) [10, 11, 12] (setMisbehavingLimit 2
            (emptyState : BanState Nat (Sum Nat (Nat × Nat))))) = true) :=
  C4_capacity_eviction NatNet 0 86400 60 false (fun _ => true) 2 10 [11, 12]
    (by decide) (by decide) (by decide) (by decide) (by decide)

end ClaimC4

end Banman
